import Mathlib

/-!
# Verification of the release-bot Release Orchestration Engine

Shallow embedding of the core of the `release-bot` repository
(`release_bot/utils.py`, `release_bot/releasebot.py`, `release_bot/github.py`,
`release_bot/fedora.py` and the legacy `release_bot/release_bot.py`), together
with theorems settling the specification claims about it.

Strings are modelled as `List Char`.  Python `str.strip`, `str.lower`,
`str.splitlines` and the few regular expressions the code uses are embedded
directly; machine-level details that the code never observes (full Unicode
case folding, exotic whitespace code points) are restricted to their ASCII
behaviour, which is noted at each definition.
-/

namespace ReleaseBot

/-- Convert a string literal to the `List Char` representation used throughout. -/
def s2l (s : String) : List Char := s.data

/-- ASCII decimal digit (`[0-9]`; the embedding restricts Python's `\d` to ASCII). -/
def isDig (c : Char) : Bool := decide ('0' ≤ c) && decide (c ≤ '9')

/-- Characters allowed by `semantic_version`'s prerelease/build groups: `[0-9a-zA-Z.-]`. -/
def isIdentChar (c : Char) : Bool :=
  isDig c || (decide ('a' ≤ c) && decide (c ≤ 'z')) ||
  (decide ('A' ≤ c) && decide (c ≤ 'Z')) || c = '.' || c = '-'

/-- Whitespace stripped by Python `str.strip()` (ASCII subset). -/
def isPySpace (c : Char) : Bool :=
  c = ' ' || c = '\t' || c = '\n' || c = '\x0d' || c = '\x0b' || c = '\x0c'

/-- Python `str.strip()` on the left. -/
def pyStripLeft (l : List Char) : List Char := l.dropWhile isPySpace

/-- Python `str.strip()` on the right. -/
def pyStripRight (l : List Char) : List Char := (l.reverse.dropWhile isPySpace).reverse

/-- Python `str.strip()`. -/
def pyStrip (l : List Char) : List Char := pyStripRight (pyStripLeft l)

/-- Python `str.lower()` (ASCII letters; the titles the scanner handles are ASCII). -/
def lowerChar (c : Char) : Char :=
  if decide ('A' ≤ c) && decide (c ≤ 'Z') then Char.ofNat (c.toNat + 32) else c

/-- Python `str.lower()` on a whole string. -/
def pyLower (l : List Char) : List Char := l.map lowerChar

/-- Python `str.split(sep)` (single-character separator). -/
def pySplit (sep : Char) : List Char → List (List Char)
  | [] => [[]]
  | c :: r =>
    if c = sep then [] :: pySplit sep r
    else
      match pySplit sep r with
      | [] => [[c]]
      | h :: t => (c :: h) :: t

/-- Value of a (non-empty) ASCII digit string, as computed by Python `int`. -/
def digitsToNat (l : List Char) : Nat :=
  l.foldl (fun acc c => 10 * acc + (c.toNat - 48)) 0

/-- Decimal rendering of a natural number (Python `str(x)` for non-negative `x`). -/
def natChars (n : Nat) : List Char := Nat.toDigits 10 n

end ReleaseBot

namespace ReleaseBot

/-!
## The `semantic_version` dependency

The bot decides every idempotency question through the `semantic_version`
Python library (`validate`, `Version`, `next_major/minor/patch`, comparison).
The definitions below embed that library's behaviour: the anchored regular
expression `^(\d+)\.(\d+)\.(\d+)(?:-([0-9a-zA-Z.-]*))?(?:\+([0-9a-zA-Z.-]*))?$`
(including Python's rule that `$` also matches just before one trailing
newline), the leading-zero checks, and the identifier checks.
-/

/-- A parsed semantic version (`semantic_version.Version` with `partial=False`). -/
structure SemVer where
  major : Nat
  minor : Nat
  patch : Nat
  prerelease : List (List Char)
  build : List (List Char)
deriving DecidableEq, Repr

/-- `semantic_version._has_leading_zero` on an all-digit group. -/
def hasLeadingZero (l : List Char) : Bool :=
  match l with
  | c :: _ :: _ => c = '0'
  | _ => false

/-- `semantic_version.Version._validate_identifiers`: every identifier must be
non-empty, and (unless leading zeroes are allowed, as for build metadata) a
purely numeric identifier must not have a leading zero. -/
def identifiersOk (allowLeadingZeroes : Bool) (ids : List (List Char)) : Bool :=
  ids.all fun item =>
    !item.isEmpty &&
    (allowLeadingZeroes || !(hasLeadingZero item && item.all isDig))

/-- Split off a leading run of ASCII digits. -/
def spanDigits (l : List Char) : List Char × List Char :=
  (l.takeWhile isDig, l.dropWhile isDig)

/-- Parse the `-prerelease`/`+build` tail of a version string, after the
`MAJOR.MINOR.PATCH` part.  Mirrors the regex groups
`(?:-([0-9a-zA-Z.-]*))?(?:\+([0-9a-zA-Z.-]*))?` followed by the end anchor;
returns the (possibly absent) raw group contents. -/
def parseTail (l : List Char) : Option (Option (List Char) × Option (List Char)) :=
  match l with
  | [] => some (none, none)
  | '-' :: r =>
    let pre := r.takeWhile isIdentChar
    match r.dropWhile isIdentChar with
    | [] => some (some pre, none)
    | '+' :: b => if b.all isIdentChar then some (some pre, some b) else none
    | _ => none
  | '+' :: b => if b.all isIdentChar then some (none, some b) else none
  | _ => none

/-- Identifier-tuple conversion in `Version.parse`: an absent or empty group is
the empty tuple, otherwise the group is split on `'.'` and validated. -/
def identifiersOf (allowLeadingZeroes : Bool) :
    Option (List Char) → Option (List (List Char))
  | none => some []
  | some [] => some []
  | some g =>
    let ids := pySplit '.' g
    if identifiersOk allowLeadingZeroes ids then some ids else none

/-- `semantic_version.Version.parse` on a string without the trailing-newline
regex quirk (see `parseVersion`). -/
def parseVersionCore (l : List Char) : Option SemVer :=
  let (majD, r1) := spanDigits l
  if majD.isEmpty || hasLeadingZero majD then none
  else
    match r1 with
    | '.' :: r2 =>
      let (minD, r3) := spanDigits r2
      if minD.isEmpty || hasLeadingZero minD then none
      else
        match r3 with
        | '.' :: r4 =>
          let (patD, r5) := spanDigits r4
          if patD.isEmpty || hasLeadingZero patD then none
          else
            match parseTail r5 with
            | none => none
            | some (preG, buildG) =>
              match identifiersOf false preG, identifiersOf true buildG with
              | some pre, some bld =>
                some ⟨digitsToNat majD, digitsToNat minD, digitsToNat patD, pre, bld⟩
              | _, _ => none
        | _ => none
    | _ => none

/-- `semantic_version.Version.parse`.  Python's `$` anchor also matches just
before a single newline that ends the string, so one trailing `'\n'` is
tolerated by the library's regex. -/
def parseVersion (l : List Char) : Option SemVer :=
  parseVersionCore (if l.getLast? = some '\n' then l.dropLast else l)

/-- `semantic_version.validate`. -/
def validate (l : List Char) : Bool := (parseVersion l).isSome

/-- `Version.next_major`: for a prerelease of `X.0.0` the release `X.0.0`
itself, otherwise `(major+1).0.0`. -/
def nextMajor (v : SemVer) : SemVer :=
  if !v.prerelease.isEmpty && v.minor = 0 && v.patch = 0 then
    ⟨v.major, v.minor, v.patch, [], []⟩
  else
    ⟨v.major + 1, 0, 0, [], []⟩

/-- `Version.next_minor`: for a prerelease of `X.Y.0` the release `X.Y.0`
itself, otherwise `major.(minor+1).0`. -/
def nextMinor (v : SemVer) : SemVer :=
  if !v.prerelease.isEmpty && v.patch = 0 then
    ⟨v.major, v.minor, v.patch, [], []⟩
  else
    ⟨v.major, v.minor + 1, 0, [], []⟩

/-- `Version.next_patch`: for a prerelease of `X.Y.Z` the release `X.Y.Z`
itself, otherwise `major.minor.(patch+1)`. -/
def nextPatch (v : SemVer) : SemVer :=
  if !v.prerelease.isEmpty then
    ⟨v.major, v.minor, v.patch, [], []⟩
  else
    ⟨v.major, v.minor, v.patch + 1, [], []⟩

/-- Rendering of the `MAJOR.MINOR.PATCH` triple (`'.'.join(...)` as used by
`next_major/minor/patch`, and `str()` of a version without prerelease/build). -/
def renderMMP (v : SemVer) : List Char :=
  natChars v.major ++ '.' :: natChars v.minor ++ '.' :: natChars v.patch

/-- Lexicographic comparison of ASCII character lists. -/
def cmpChars : List Char → List Char → Ordering
  | [], [] => .eq
  | [], _ :: _ => .lt
  | _ :: _, [] => .gt
  | a :: as, b :: bs => (compare a b).then (cmpChars as bs)

/-- Semver precedence on single prerelease identifiers: numeric identifiers
compare numerically and are lower than alphanumeric ones. -/
def cmpIdent (a b : List Char) : Ordering :=
  match a.all isDig, b.all isDig with
  | true, true => compare (digitsToNat a) (digitsToNat b)
  | true, false => .lt
  | false, true => .gt
  | false, false => cmpChars a b

/-- Semver precedence on prerelease identifier lists (a strict prefix is lower). -/
def cmpIdentList : List (List Char) → List (List Char) → Ordering
  | [], [] => .eq
  | [], _ :: _ => .lt
  | _ :: _, [] => .gt
  | a :: as, b :: bs => (cmpIdent a b).then (cmpIdentList as bs)

/-- Semver precedence on the prerelease component: a release is higher than
any of its prereleases. -/
def cmpPre : List (List Char) → List (List Char) → Ordering
  | [], [] => .eq
  | [], _ :: _ => .gt
  | _ :: _, [] => .lt
  | a :: as, b :: bs => cmpIdentList (a :: as) (b :: bs)

/-- Semantic-version precedence (`semantic_version.Version` comparison; build
metadata does not participate in precedence). -/
def semverCmp (x y : SemVer) : Ordering :=
  (compare x.major y.major).then
    ((compare x.minor y.minor).then
      ((compare x.patch y.patch).then (cmpPre x.prerelease y.prerelease)))

/-- `x <= y` under semantic-version precedence. -/
def semverLe (x y : SemVer) : Bool := !(semverCmp x y = .gt)

/-- `x < y` under semantic-version precedence. -/
def semverLt (x y : SemVer) : Bool := semverCmp x y = .lt

end ReleaseBot

namespace ReleaseBot

/-!
## `utils.process_version_from_title`

```python
re_match = re.match(r'(.+) release$', title)
if re_match:
    keyword = re_match[1].strip()
    if validate(keyword): match, version = True, keyword
    elif keyword == "new major": ... latest_version.next_major() ...
```

In Python's `re`, `.` matches any character except `'\n'`, and `$` matches at
the end of the string or just before one newline that ends it.  Hence the
pattern matches exactly when the string (or the string minus one trailing
newline) ends with the literal `" release"`, with a non-empty newline-free
prefix; the group is that prefix.
-/

/-- The literal suffix `" release"` of the title grammar. -/
def relSuffix : List Char := s2l " release"

/-- The group captured by `re.match(r'(.+) release$', t)` at the end anchor:
the prefix before the 8-character suffix `" release"`, which must be non-empty
and contain no newline. -/
def reTitleCore (t : List Char) : Option (List Char) :=
  if relSuffix.isSuffixOf t then
    let p := t.take (t.length - 8)
    if !p.isEmpty && !p.contains '\n' then some p else none
  else none

/-- Full semantics of `re.match(r'(.+) release$', title)`, including the
`$`-before-one-trailing-newline rule. -/
def reTitleGroup (t : List Char) : Option (List Char) :=
  match reTitleCore t with
  | some p => some p
  | none => if t.getLast? = some '\n' then reTitleCore t.dropLast else none

/-- Keywords that trigger a computed next version. -/
def kwNewMajor : List Char := s2l "new major"
def kwNewMinor : List Char := s2l "new minor"
def kwNewPatch : List Char := s2l "new patch"

/-- `utils.process_version_from_title(title, latest_version)`.  Returns the
`(match, version)` pair.  `latest_version` is the already-parsed
`Version(self.github.latest_release())`. -/
def process_version_from_title (title : List Char) (latest : SemVer) :
    Bool × List Char :=
  match reTitleGroup title with
  | none => (false, [])
  | some g =>
    let keyword := pyStrip g
    if validate keyword then (true, keyword)
    else if keyword = kwNewMajor then (true, renderMMP (nextMajor latest))
    else if keyword = kwNewMinor then (true, renderMMP (nextMinor latest))
    else if keyword = kwNewPatch then (true, renderMMP (nextPatch latest))
    else (false, [])

/-- The scanner's title match as the callers use it: the raw title is
lower-cased and trimmed before `process_version_from_title`
(`edge['node']['title'].lower().strip()` in `releasebot.py`). -/
def scanTitle (title : List Char) (latest : SemVer) : Bool × List Char :=
  process_version_from_title (pyStrip (pyLower title)) latest

/-!
### Claim C1, as stated

The claim-side predicates below follow the words of the claim / spec §4.1 and
§8: the processed title must end with `" release"`, the keyword is the prefix
before that suffix (the code strips it of surrounding whitespace, so the
keyword here is the trimmed prefix), and on `"new major"/"new minor"/"new
patch"` the claim promises "the latest known release version with the
corresponding component incremented", i.e. the usual next-version values
`(major+1).0.0`, `major.(minor+1).0`, `major.minor.(patch+1)` — as in the
spec's own example `"new patch"` with latest `0.0.1` yields `0.0.2`. -/

/-- The keyword of a title: the whitespace-trimmed prefix before `" release"`. -/
def claimKeyword (t : List Char) : List Char := pyStrip (t.take (t.length - 8))

/-- Claim-side title grammar: ends with `" release"`, preceded by a non-empty
keyword that is a valid semver literal or one of the three `new ...` keywords. -/
def specTitleMatch (t : List Char) : Bool :=
  relSuffix.isSuffixOf t && !(claimKeyword t).isEmpty &&
    (validate (claimKeyword t) || claimKeyword t = kwNewMajor ||
     claimKeyword t = kwNewMinor || claimKeyword t = kwNewPatch)

/-- Claim-side version: the semver literal itself, or the latest version with
the corresponding component incremented. -/
def specTitleVersion (t : List Char) (latest : SemVer) : List Char :=
  let kw := claimKeyword t
  if validate kw then kw
  else if kw = kwNewMajor then renderMMP ⟨latest.major + 1, 0, 0, [], []⟩
  else if kw = kwNewMinor then renderMMP ⟨latest.major, latest.minor + 1, 0, [], []⟩
  else renderMMP ⟨latest.major, latest.minor, latest.patch + 1, [], []⟩

/-- Claim C1 as stated, for one title and one latest version: the match
succeeds iff the processed title satisfies the claim's grammar, and on success
the returned version is the claim's version. -/
def claimC1 (title : List Char) (latest : SemVer) : Prop :=
  let t := pyStrip (pyLower title)
  ((scanTitle title latest).1 = true ↔ specTitleMatch t = true) ∧
  ((scanTitle title latest).1 = true →
    (scanTitle title latest).2 = specTitleVersion t latest)

/-- Amended title grammar: additionally the raw prefix before `" release"`
must contain no newline character (Python's `.` does not match `'\n'`). -/
def amendedTitleMatch (t : List Char) : Bool :=
  relSuffix.isSuffixOf t && !(t.take (t.length - 8)).isEmpty &&
    !(t.take (t.length - 8)).contains '\n' && !(claimKeyword t).isEmpty &&
    (validate (claimKeyword t) || claimKeyword t = kwNewMajor ||
     claimKeyword t = kwNewMinor || claimKeyword t = kwNewPatch)

/-- Amended version clause: on a `new ...` keyword the version is the
`semantic_version` library's `next_major/minor/patch` of the latest release,
which increments (resetting the lower components), except that for a
prerelease the already-started version itself is returned. -/
def amendedTitleVersion (t : List Char) (latest : SemVer) : List Char :=
  let kw := claimKeyword t
  if validate kw then kw
  else if kw = kwNewMajor then renderMMP (nextMajor latest)
  else if kw = kwNewMinor then renderMMP (nextMinor latest)
  else renderMMP (nextPatch latest)

end ReleaseBot

namespace ReleaseBot

/-! ### Lemmas about stripping and the title regex -/

lemma head?_dropWhile_not (p : Char → Bool) :
    ∀ l : List Char, ∀ a : Char, (l.dropWhile p).head? = some a → p a = false := by
  intro l
  induction l with
  | nil => intro a h; simp [List.dropWhile] at h
  | cons c r ih =>
    intro a h
    by_cases hc : p c
    · rw [List.dropWhile_cons_of_pos hc] at h
      exact ih a h
    · rw [List.dropWhile_cons_of_neg hc] at h
      simp at h
      subst h
      simpa using hc

lemma pyStrip_getLast_not_space (l : List Char) (a : Char)
    (h : (pyStrip l).getLast? = some a) : isPySpace a = false := by
  unfold pyStrip pyStripRight at h
  rw [List.getLast?_reverse] at h
  exact head?_dropWhile_not isPySpace _ a h

lemma reTitleGroup_strip (l : List Char) :
    reTitleGroup (pyStrip l) = reTitleCore (pyStrip l) := by
  unfold reTitleGroup
  cases hc : reTitleCore (pyStrip l) with
  | some p => rfl
  | none =>
    simp only
    rw [if_neg]
    intro h
    have := pyStrip_getLast_not_space l '\n' h
    simp [isPySpace] at this

lemma validate_nil : validate [] = false := by decide

lemma keyword_cond_ne_nil {kw : List Char}
    (h : (validate kw || kw = kwNewMajor || kw = kwNewMinor || kw = kwNewPatch) = true) :
    kw.isEmpty = false := by
  cases kw with
  | nil => exact absurd h (by decide)
  | cons c r => rfl

/-- **C1** (corrected).  For every title `T` and latest release version, the
scanner's title match — `process_version_from_title` applied to `T` after
lower-casing and trimming — succeeds iff the processed title ends with the
literal suffix `" release"` and the prefix before that suffix is non-empty,
contains no newline character, and trims to a keyword that is a valid
semantic-version literal or one of `"new major"`, `"new minor"`,
`"new patch"`.  On a semver keyword the returned version is that keyword; on
a `new ...` keyword it is the library's `next_major/minor/patch` of the
latest version (which increments the corresponding component and resets the
lower ones, except that a prerelease latest version yields its own numeric
version).  Any other title yields no match. -/
theorem C1_scan_title_grammar (title : List Char) (latest : SemVer) :
    ((scanTitle title latest).1 = true ↔
      amendedTitleMatch (pyStrip (pyLower title)) = true) ∧
    ((scanTitle title latest).1 = true →
      (scanTitle title latest).2 = amendedTitleVersion (pyStrip (pyLower title)) latest) := by
  have hgrp := reTitleGroup_strip (pyLower title)
  unfold scanTitle process_version_from_title
  rw [hgrp]
  unfold reTitleCore amendedTitleMatch amendedTitleVersion claimKeyword
  by_cases hsuf : relSuffix.isSuffixOf (pyStrip (pyLower title)) = true
  · rw [if_pos hsuf]
    simp only [hsuf, Bool.true_and]
    by_cases hne :
        ((pyStrip (pyLower title)).take ((pyStrip (pyLower title)).length - 8)).isEmpty
    · simp [hne]
    · simp only [hne, Bool.not_false, Bool.true_and]
      by_cases hnl :
          ((pyStrip (pyLower title)).take ((pyStrip (pyLower title)).length - 8)).contains '\n'
      · have hmem : '\n' ∈
            (pyStrip (pyLower title)).take ((pyStrip (pyLower title)).length - 8) := by
          simpa using hnl
        simp [hnl, hmem]
      · have hnm : '\n' ∉
            (pyStrip (pyLower title)).take ((pyStrip (pyLower title)).length - 8) := by
          simpa using hnl
        simp only [hnl, Bool.not_false, Bool.true_and, Bool.false_eq_true,
          not_false_eq_true, if_true]
        set kw :=
          pyStrip ((pyStrip (pyLower title)).take ((pyStrip (pyLower title)).length - 8)) with hkw
        by_cases hv : validate kw
        · have hker : kw ≠ [] := by
            intro h0
            rw [h0] at hv
            exact absurd hv (by decide)
          simp [hv, hker, hnm]
        · simp only [hv, if_false, Bool.false_or]
          by_cases hmaj : kw = kwNewMajor
          · simp [hmaj, @keyword_cond_ne_nil kwNewMajor (by decide)]
          · simp only [hmaj, if_false]
            by_cases hmin : kw = kwNewMinor
            · simp [hmin, @keyword_cond_ne_nil kwNewMinor (by decide)]
            · simp only [hmin, if_false]
              by_cases hpat : kw = kwNewPatch
              · simp [hpat, @keyword_cond_ne_nil kwNewPatch (by decide)]
              · simp [hpat, hv]
  · rw [if_neg hsuf]
    simp [hsuf]

/-- Counterexample to C1 as stated: for the title `"new patch release"` with
latest version `0.0.1-a` (a prerelease), the claim promises the version with
the patch component incremented (`0.0.2`), but the code returns `0.0.1`
(`Version.next_patch` of a prerelease is the prerelease's own release). -/
theorem C1_claim_counterexample :
    ¬ claimC1 (s2l "new patch release") ⟨0, 0, 1, [s2l "a"], []⟩ := by
  intro h
  have h2 := h.2 (by decide)
  exact absurd h2 (by decide)

end ReleaseBot

namespace ReleaseBot

/-!
## `utils.update_version`

```python
content = input_file.read().splitlines(); content_original = content.copy()
changed = False
for index, line in enumerate(content):
    if line.startswith(prefix):
        pieces = line.split('=', maxsplit=1)
        if len(pieces) == 2:
            old_version = (pieces[1].strip())[1:-1]
            if validate(old_version):
                content[index] = f"{pieces[0].strip()} = '{new_version}'"
                changed = True if content != content_original else False
                break
            else:
                return False
if changed:
    output.write('\n'.join(content) + '\n')
return changed
```
-/

/-- Python `str.splitlines()` (newlines restricted to `'\n'`, the only line
terminator the version files the bot edits contain). -/
def pySplitlines : List Char → List (List Char)
  | [] => []
  | c :: r =>
    if c = '\n' then [] :: pySplitlines r
    else
      match pySplitlines r with
      | [] => [[c]]
      | h :: t => (c :: h) :: t

/-- `'\n'.join(lines) + '\n'` as written by `update_version`. -/
def joinLines (ls : List (List Char)) : List Char :=
  (ls.intersperse (s2l "\n")).flatten ++ s2l "\n"

/-- Python `line.split(sep, maxsplit=1)` when the separator occurs (the
two-piece case); `none` when it does not. -/
def pySplitOnce (sep : Char) : List Char → Option (List Char × List Char)
  | [] => none
  | c :: r =>
    if c = sep then some ([], r)
    else (pySplitOnce sep r).map (fun ab => (c :: ab.1, ab.2))

/-- Python `s[1:-1]` on a string. -/
def dropQuotes (l : List Char) : List Char := (l.drop 1).dropLast

/-- `line.startswith(prefix)` for a prefix tuple. -/
def startsWithAny (pfxs : List (List Char)) (line : List Char) : Bool :=
  pfxs.any (fun p => p.isPrefixOf line)

/-- Outcome of `update_version`'s scanning loop. -/
inductive UVOut where
  | replaced (newLines : List (List Char))
  | aborted
  | noMatch
deriving DecidableEq, Repr

/-- The scanning loop of `update_version`: at the first line that starts with
one of the prefixes and splits in two at `'='`, either replace the line (and
`break`) or — if the old value fails `validate` — return `False` at once.
Prefix-lines without an `'='` are passed over by the loop. -/
def uvLoop (newV : List Char) (pfxs : List (List Char)) :
    List (List Char) → UVOut
  | [] => .noMatch
  | line :: rest =>
    if startsWithAny pfxs line then
      match pySplitOnce '=' line with
      | none =>
        match uvLoop newV pfxs rest with
        | .replaced ls => .replaced (line :: ls)
        | x => x
      | some (a, b) =>
        if validate (dropQuotes (pyStrip b)) then
          .replaced ((pyStrip a ++ s2l " = '" ++ newV ++ s2l "'") :: rest)
        else .aborted
    else
      match uvLoop newV pfxs rest with
      | .replaced ls => .replaced (line :: ls)
      | x => x

/-- `utils.update_version(file, new_version, prefix)`.  The result is
`(returned value, file content afterwards, whether the file was written)`. -/
def update_version (content newV : List Char) (pfxs : List (List Char)) :
    Bool × List Char × Bool :=
  let lines := pySplitlines content
  match uvLoop newV pfxs lines with
  | .aborted => (false, content, false)
  | .noMatch => (false, content, false)
  | .replaced ls =>
    if ls ≠ lines then (true, joinLines ls, true) else (false, content, false)

lemma uvLoop_skip (newV : List Char) (pfxs : List (List Char))
    (pre rest : List (List Char)) (hpre : ∀ l ∈ pre, startsWithAny pfxs l = false)
    (hres : uvLoop newV pfxs rest = .aborted) :
    uvLoop newV pfxs (pre ++ rest) = .aborted := by
  induction pre with
  | nil => simpa using hres
  | cons p ps ih =>
    have hp : startsWithAny pfxs p = false := hpre p (by simp)
    have ihh := ih (fun l hl => hpre l (by simp [hl]))
    show uvLoop newV pfxs (p :: (ps ++ rest)) = .aborted
    unfold uvLoop
    rw [if_neg (by simp [hp])]
    rw [ihh]

/-- **C10**.  For every file content, new version and prefix tuple,
`update_version` writes the file iff it returns `True` (the write happens
exactly when `changed` is set, which also excludes the no-op replacement
case), and whenever it returns `False` the content is left byte-for-byte
unchanged; in particular, when the first line that starts with the
version-variable prefix carries a value that does not validate as a semantic
version, it returns `False` with no write. -/
theorem C10_update_version_no_partial_write (content newV : List Char)
    (pfxs : List (List Char)) :
    ((update_version content newV pfxs).2.2 = true ↔
        (update_version content newV pfxs).1 = true) ∧
    ((update_version content newV pfxs).1 = false →
        (update_version content newV pfxs).2.1 = content) ∧
    (∀ pre line post a b,
      pySplitlines content = pre ++ line :: post →
      (∀ l ∈ pre, startsWithAny pfxs l = false) →
      startsWithAny pfxs line = true →
      pySplitOnce '=' line = some (a, b) →
      validate (dropQuotes (pyStrip b)) = false →
      (update_version content newV pfxs).1 = false ∧
      (update_version content newV pfxs).2.1 = content ∧
      (update_version content newV pfxs).2.2 = false) := by
  refine ⟨?_, ?_, ?_⟩
  · simp only [update_version]
    cases uvLoop newV pfxs (pySplitlines content) with
    | aborted => simp
    | noMatch => simp
    | replaced ls =>
      simp only
      split <;> simp
  · simp only [update_version]
    cases uvLoop newV pfxs (pySplitlines content) with
    | aborted => simp
    | noMatch => simp
    | replaced ls =>
      simp only
      split <;> simp
  · intro pre line post a b hsplit hpre hline heq hbad
    have habort : uvLoop newV pfxs (pySplitlines content) = .aborted := by
      rw [hsplit]
      refine uvLoop_skip newV pfxs pre (line :: post) hpre ?_
      simp only [uvLoop, hline, if_true, heq, hbad, Bool.false_eq_true, if_false]
    simp only [update_version, habort]
    simp

/-- A successful `update_version` run, showing the `True` side of the
write-iff-returns-`True` equivalence is inhabited: a quoted valid old
version is replaced and the file is written. -/
theorem update_version_success_example :
    update_version (s2l "__version__ = \'1.0.0\'\n") (s2l "2.0.0")
      [s2l "__version__"] =
      (true, s2l "__version__ = \'2.0.0\'\n", true) := by decide

/-- Witness for C10: the file `"__version__ = 1.0.0\n"` (value not quoted, so
the parsed old value `".0."` is invalid) is returned unchanged with `False`. -/
theorem C10_update_version_witness :
    (update_version (s2l "__version__ = 1.0.0\n") (s2l "2.0.0")
      [s2l "__version__"]).1 = false ∧
    (update_version (s2l "__version__ = 1.0.0\n") (s2l "2.0.0")
      [s2l "__version__"]).2.1 = s2l "__version__ = 1.0.0\n" ∧
    (update_version (s2l "__version__ = 1.0.0\n") (s2l "2.0.0")
      [s2l "__version__"]).2.2 = false :=
  (C10_update_version_no_partial_write (s2l "__version__ = 1.0.0\n") (s2l "2.0.0")
      [s2l "__version__"]).2.2 [] (s2l "__version__ = 1.0.0") []
    (s2l "__version__ ") (s2l " 1.0.0")
    (by decide) (by simp) (by decide) (by decide) (by decide)

end ReleaseBot

namespace ReleaseBot

/-!
## `ReleaseBot.find_open_release_issues` (releasebot.py)

```python
release_issues = {}
latest_version = Version(self.github.latest_release())
while True:
    edges = self.github.walk_through_open_issues(start=cursor, direction='before')
    if not edges: break
    for edge in reversed(edges):
        cursor = edge['cursor']
        title = edge['node']['title'].lower().strip()
        match, version = process_version_from_title(title, latest_version)
        if match:
            if edge['node']['authorAssociation'] in ['MEMBER', 'OWNER', 'COLLABORATOR']:
                release_issues[version] = edge['node']
if len(release_issues) > 1: ... return False
if len(release_issues) == 1:
    for version, node in release_issues.items():
        self.new_pr.update_new_pr_details(version=version, issue_id=node['id'],
                                          issue_number=node['number'], ...)
        return True
else:
    return False
```

The paginated walk visits each open issue exactly once; the parameter
`issues` below is the sequence of issue nodes in the order the loop processes
them.  `release_issues` is a Python dict keyed by the *version* string; it is
modelled as an insertion-ordered association list with replace-on-existing-key
update. -/

/-- An issue node as returned by the GraphQL `issues` query. -/
structure IssueNode where
  nodeId : List Char
  number : Nat
  title : List Char
  authorAssociation : List Char
deriving DecidableEq, Repr

/-- `edge['node']['authorAssociation'] in ['MEMBER', 'OWNER', 'COLLABORATOR']`. -/
def authorizedAssoc (i : IssueNode) : Bool :=
  i.authorAssociation = s2l "MEMBER" || i.authorAssociation = s2l "OWNER" ||
    i.authorAssociation = s2l "COLLABORATOR"

/-- The `match` component of `process_version_from_title` on the issue title. -/
def issueMatch (latest : SemVer) (i : IssueNode) : Bool := (scanTitle i.title latest).1

/-- The `version` component of `process_version_from_title` on the issue title. -/
def issueVersion (latest : SemVer) (i : IssueNode) : List Char := (scanTitle i.title latest).2

/-- Python-dict assignment `d[k] = v`: replace in place, or append a new key. -/
def upsert (k : List Char) (v : IssueNode) :
    List (List Char × IssueNode) → List (List Char × IssueNode)
  | [] => [(k, v)]
  | (k', v') :: r => if k' = k then (k, v) :: r else (k', v') :: upsert k v r

/-- The `release_issues` dict after the scanning loop. -/
def releaseIssuesDict (latest : SemVer) (issues : List IssueNode) :
    List (List Char × IssueNode) :=
  issues.foldl
    (fun d i =>
      if issueMatch latest i then
        if authorizedAssoc i then upsert (issueVersion latest i) i d else d
      else d)
    []

/-- Result of `find_open_release_issues`: the returned boolean and, when an
issue is selected, the version/issue-id/issue-number recorded on `new_pr`. -/
structure ScanIssuesResult where
  found : Bool
  intent : Option (List Char × List Char × Nat)
deriving DecidableEq, Repr

/-- `ReleaseBot.find_open_release_issues`. -/
def find_open_release_issues (latest : SemVer) (issues : List IssueNode) :
    ScanIssuesResult :=
  let d := releaseIssuesDict latest issues
  if 1 < d.length then ⟨false, none⟩
  else
    match d with
    | [(v, n)] => ⟨true, some (v, n.nodeId, n.number)⟩
    | _ => ⟨false, none⟩

/-- The open issues that match the release-title grammar with an authorized
author — what claim C4 counts. -/
def matchingIssues (latest : SemVer) (issues : List IssueNode) : List IssueNode :=
  issues.filter (fun i => issueMatch latest i && authorizedAssoc i)

/-- Claim C4 as stated, for one scan: more than one matching open issue forces
a conflict (`False`), and a single matching issue is returned as the intent. -/
def claimC4 (latest : SemVer) (issues : List IssueNode) : Prop :=
  (1 < (matchingIssues latest issues).length →
    (find_open_release_issues latest issues).found = false) ∧
  ((matchingIssues latest issues).length = 1 →
    (find_open_release_issues latest issues).found = true ∧
    ∃ i ∈ matchingIssues latest issues,
      (find_open_release_issues latest issues).intent =
        some (issueVersion latest i, i.nodeId, i.number))

end ReleaseBot

namespace ReleaseBot

instance : Inhabited IssueNode := ⟨⟨[], 0, [], []⟩⟩

/-- One step of the scanning loop's dict update. -/
def scanStep (latest : SemVer) (d : List (List Char × IssueNode)) (i : IssueNode) :
    List (List Char × IssueNode) :=
  if issueMatch latest i then
    if authorizedAssoc i then upsert (issueVersion latest i) i d else d
  else d

lemma releaseIssuesDict_eq_foldl (latest : SemVer) (issues : List IssueNode) :
    releaseIssuesDict latest issues = issues.foldl (scanStep latest) [] := rfl

lemma keysOf_upsert (k : List Char) (v : IssueNode) (d : List (List Char × IssueNode)) :
    (upsert k v d).map Prod.fst =
      if k ∈ d.map Prod.fst then d.map Prod.fst else d.map Prod.fst ++ [k] := by
  induction d with
  | nil => simp [upsert]
  | cons p r ih =>
    obtain ⟨k', v'⟩ := p
    by_cases h : k' = k
    · subst h
      simp [upsert]
    · simp only [upsert, if_neg h, List.map_cons]
      rw [ih]
      by_cases hm : k ∈ r.map Prod.fst
      · rw [if_pos hm, if_pos (by simp [hm])]
      · rw [if_neg hm, if_neg (by simp [hm, Ne.symm h])]
        simp

lemma mem_keys_upsert_self (k : List Char) (v : IssueNode)
    (d : List (List Char × IssueNode)) : k ∈ (upsert k v d).map Prod.fst := by
  rw [keysOf_upsert]
  split
  · assumption
  · simp

lemma mem_keys_upsert_of_mem (a k : List Char) (v : IssueNode)
    (d : List (List Char × IssueNode)) (h : a ∈ d.map Prod.fst) :
    a ∈ (upsert k v d).map Prod.fst := by
  rw [keysOf_upsert]
  split
  · exact h
  · simp [h]

lemma mem_keys_foldl (latest : SemVer) :
    ∀ (issues : List IssueNode) (acc : List (List Char × IssueNode)) (a : List Char),
      a ∈ acc.map Prod.fst →
      a ∈ (issues.foldl (scanStep latest) acc).map Prod.fst := by
  intro issues
  induction issues with
  | nil => intro acc a h; simpa using h
  | cons i r ih =>
    intro acc a h
    rw [List.foldl_cons]
    apply ih
    unfold scanStep
    split
    · split
      · exact mem_keys_upsert_of_mem _ _ _ _ h
      · exact h
    · exact h

lemma ver_mem_keys_foldl (latest : SemVer) :
    ∀ (issues : List IssueNode) (acc : List (List Char × IssueNode)) (i : IssueNode),
      i ∈ issues → issueMatch latest i = true → authorizedAssoc i = true →
      issueVersion latest i ∈ (issues.foldl (scanStep latest) acc).map Prod.fst := by
  intro issues
  induction issues with
  | nil => intro acc i h; simp at h
  | cons j r ih =>
    intro acc i hmem hm ha
    rw [List.foldl_cons]
    rcases List.mem_cons.mp hmem with h | h
    · subst h
      apply mem_keys_foldl
      unfold scanStep
      rw [if_pos hm, if_pos ha]
      exact mem_keys_upsert_self _ _ _
    · exact ih _ i h hm ha

lemma two_le_length_of_two_mem {α : Type} {a b : α} {l : List α}
    (ha : a ∈ l) (hb : b ∈ l) (hne : a ≠ b) : 2 ≤ l.length := by
  match l with
  | [] => simp at ha
  | [x] =>
    simp at ha hb
    exact absurd (ha.trans hb.symm) hne
  | x :: y :: t => simp

lemma foldl_no_match (latest : SemVer) :
    ∀ (issues : List IssueNode) (acc : List (List Char × IssueNode)),
      (∀ i ∈ issues, (issueMatch latest i && authorizedAssoc i) = false) →
      issues.foldl (scanStep latest) acc = acc := by
  intro issues
  induction issues with
  | nil => intro acc _; rfl
  | cons i r ih =>
    intro acc h
    rw [List.foldl_cons]
    have hi := h i (by simp)
    have hstep : scanStep latest acc i = acc := by
      unfold scanStep
      rcases Bool.and_eq_false_iff.mp hi with h1 | h1 <;> simp [h1]
    rw [hstep]
    exact ih acc (fun j hj => h j (by simp [hj]))

lemma foldl_single (latest : SemVer) (v : List Char) :
    ∀ (issues : List IssueNode) (u : IssueNode),
      (∀ i ∈ issues, issueMatch latest i = true → authorizedAssoc i = true →
        issueVersion latest i = v) →
      ∃ w, issues.foldl (scanStep latest) [(v, u)] = [(v, w)] ∧
        (w = u ∨ (w ∈ issues ∧ issueMatch latest w = true ∧ authorizedAssoc w = true ∧
          issueVersion latest w = v)) := by
  intro issues
  induction issues with
  | nil => intro u _; exact ⟨u, rfl, Or.inl rfl⟩
  | cons i r ih =>
    intro u h
    rw [List.foldl_cons]
    by_cases hm : issueMatch latest i
    · by_cases ha : authorizedAssoc i
      · have hv : issueVersion latest i = v := h i (by simp) hm ha
        have hstep : scanStep latest [(v, u)] i = [(v, i)] := by
          unfold scanStep
          rw [if_pos hm, if_pos ha, hv]
          simp [upsert]
        rw [hstep]
        obtain ⟨w, hw, hcase⟩ := ih i (fun j hj => h j (by simp [hj]))
        refine ⟨w, hw, Or.inr ?_⟩
        rcases hcase with h1 | h2
        · exact ⟨by simp [h1], h1 ▸ hm, h1 ▸ ha, h1 ▸ hv⟩
        · exact ⟨by simp [h2.1], h2.2.1, h2.2.2.1, h2.2.2.2⟩
      · have hstep : scanStep latest [(v, u)] i = [(v, u)] := by
          unfold scanStep
          rw [if_pos hm, if_neg ha]
        rw [hstep]
        obtain ⟨w, hw, hcase⟩ := ih u (fun j hj => h j (by simp [hj]))
        refine ⟨w, hw, ?_⟩
        rcases hcase with h1 | h2
        · exact Or.inl h1
        · exact Or.inr ⟨by simp [h2.1], h2.2.1, h2.2.2.1, h2.2.2.2⟩
    · have hstep : scanStep latest [(v, u)] i = [(v, u)] := by
        unfold scanStep
        rw [if_neg hm]
      rw [hstep]
      obtain ⟨w, hw, hcase⟩ := ih u (fun j hj => h j (by simp [hj]))
      refine ⟨w, hw, ?_⟩
      rcases hcase with h1 | h2
      · exact Or.inl h1
      · exact Or.inr ⟨by simp [h2.1], h2.2.1, h2.2.2.1, h2.2.2.2⟩

lemma foldl_from_nil (latest : SemVer) (v : List Char) :
    ∀ (issues : List IssueNode),
      (∀ i ∈ issues, issueMatch latest i = true → authorizedAssoc i = true →
        issueVersion latest i = v) →
      issues.foldl (scanStep latest) [] = [] ∨
      ∃ w ∈ issues, issueMatch latest w = true ∧ authorizedAssoc w = true ∧
        issueVersion latest w = v ∧ issues.foldl (scanStep latest) [] = [(v, w)] := by
  intro issues
  induction issues with
  | nil => intro _; exact Or.inl rfl
  | cons i r ih =>
    intro h
    rw [List.foldl_cons]
    by_cases hm : issueMatch latest i
    · by_cases ha : authorizedAssoc i
      · have hv : issueVersion latest i = v := h i (by simp) hm ha
        have hstep : scanStep latest [] i = [(v, i)] := by
          unfold scanStep
          rw [if_pos hm, if_pos ha, hv]
          rfl
        rw [hstep]
        obtain ⟨w, hw, hcase⟩ := foldl_single latest v r i (fun j hj => h j (by simp [hj]))
        refine Or.inr ?_
        rcases hcase with h1 | h2
        · exact ⟨w, by simp [h1], h1 ▸ hm, h1 ▸ ha, h1 ▸ hv, hw⟩
        · exact ⟨w, by simp [h2.1], h2.2.1, h2.2.2.1, h2.2.2.2, hw⟩
      · have hstep : scanStep latest [] i = [] := by
          unfold scanStep
          rw [if_pos hm, if_neg ha]
        rw [hstep]
        rcases ih (fun j hj => h j (by simp [hj])) with h1 | ⟨w, hw, hprops⟩
        · exact Or.inl h1
        · exact Or.inr ⟨w, by simp [hw], hprops⟩
    · have hstep : scanStep latest [] i = [] := by
        unfold scanStep
        rw [if_neg hm]
      rw [hstep]
      rcases ih (fun j hj => h j (by simp [hj])) with h1 | ⟨w, hw, hprops⟩
      · exact Or.inl h1
      · exact Or.inr ⟨w, by simp [hw], hprops⟩

end ReleaseBot

namespace ReleaseBot

lemma mem_matchingIssues {latest : SemVer} {issues : List IssueNode} {i : IssueNode} :
    i ∈ matchingIssues latest issues ↔
      i ∈ issues ∧ issueMatch latest i = true ∧ authorizedAssoc i = true := by
  unfold matchingIssues
  rw [List.mem_filter]
  simp [Bool.and_eq_true]

/-- **C4** (corrected).  The `release_issues` dict is keyed by *version*, so
the conflict check counts distinct requested versions, not matching issues:
if the matching open issues (release-title grammar plus authorized author)
request at least two distinct versions, `find_open_release_issues` reports a
conflict and returns `False` with no intent recorded; if at least one issue
matches and all matching issues request the same version, it returns `True`
and records that version together with the id and number of one of those
issues; with no matching issue it returns `False`. -/
theorem C4_release_issue_conflict (latest : SemVer) (issues : List IssueNode) :
    ((∃ i ∈ matchingIssues latest issues, ∃ j ∈ matchingIssues latest issues,
        issueVersion latest i ≠ issueVersion latest j) →
      find_open_release_issues latest issues = ⟨false, none⟩) ∧
    (matchingIssues latest issues ≠ [] →
      (∀ i ∈ matchingIssues latest issues, ∀ j ∈ matchingIssues latest issues,
        issueVersion latest i = issueVersion latest j) →
      (find_open_release_issues latest issues).found = true ∧
      ∃ w ∈ matchingIssues latest issues,
        (find_open_release_issues latest issues).intent =
          some (issueVersion latest w, w.nodeId, w.number)) ∧
    (matchingIssues latest issues = [] →
      find_open_release_issues latest issues = ⟨false, none⟩) := by
  refine ⟨?_, ?_, ?_⟩
  · rintro ⟨i, hi, j, hj, hne⟩
    obtain ⟨hi1, hi2, hi3⟩ := mem_matchingIssues.mp hi
    obtain ⟨hj1, hj2, hj3⟩ := mem_matchingIssues.mp hj
    have hki := ver_mem_keys_foldl latest issues [] i hi1 hi2 hi3
    have hkj := ver_mem_keys_foldl latest issues [] j hj1 hj2 hj3
    have hlen : 2 ≤ ((issues.foldl (scanStep latest) []).map Prod.fst).length :=
      two_le_length_of_two_mem hki hkj hne
    rw [List.length_map] at hlen
    unfold find_open_release_issues
    rw [releaseIssuesDict_eq_foldl]
    rw [if_pos (by omega)]
  · intro hne hall
    obtain ⟨w0, hw0⟩ : ∃ w0, w0 ∈ matchingIssues latest issues := by
      cases h : matchingIssues latest issues with
      | nil => exact absurd h hne
      | cons a l => exact ⟨a, List.mem_cons_self a l⟩
    obtain ⟨hw01, hw02, hw03⟩ := mem_matchingIssues.mp hw0
    set v := issueVersion latest w0 with hv
    have hcond : ∀ i ∈ issues, issueMatch latest i = true → authorizedAssoc i = true →
        issueVersion latest i = v := by
      intro i h1 h2 h3
      exact hall i (mem_matchingIssues.mpr ⟨h1, h2, h3⟩) w0 hw0
    rcases foldl_from_nil latest v issues hcond with hnil | ⟨w, hw1, hw2, hw3, hw4, hw5⟩
    · have := ver_mem_keys_foldl latest issues [] w0 hw01 hw02 hw03
      rw [hnil] at this
      simp at this
    · have hres : find_open_release_issues latest issues =
          ⟨true, some (v, w.nodeId, w.number)⟩ := by
        unfold find_open_release_issues
        rw [releaseIssuesDict_eq_foldl, hw5]
        rfl
      refine ⟨by rw [hres], w, mem_matchingIssues.mpr ⟨hw1, hw2, hw3⟩, ?_⟩
      rw [hres, hw4]
  · intro hnil
    have hcond : ∀ i ∈ issues, (issueMatch latest i && authorizedAssoc i) = false := by
      intro i hi
      by_contra hc
      have : i ∈ matchingIssues latest issues := by
        unfold matchingIssues
        rw [List.mem_filter]
        exact ⟨hi, by revert hc; cases (issueMatch latest i && authorizedAssoc i) <;> simp⟩
      rw [hnil] at this
      simp at this
    have := foldl_no_match latest issues [] hcond
    unfold find_open_release_issues
    rw [releaseIssuesDict_eq_foldl, this]
    rfl

/-- Counterexample to C4 as stated: two distinct open issues, both with
authorized authors, both titled `"1.0.0 release"`.  More than one open issue
matches, but because the dict is keyed by version the scan does not report a
conflict: it returns `True` and proceeds with one of them. -/
theorem C4_claim_counterexample :
    ¬ claimC4 ⟨0, 0, 0, [], []⟩
      [⟨s2l "I1", 1, s2l "1.0.0 release", s2l "MEMBER"⟩,
       ⟨s2l "I2", 2, s2l "1.0.0 release", s2l "OWNER"⟩] := by
  intro h
  exact absurd (h.1 (by decide)) (by decide)

/-- Witness for C4: with two open issues requesting distinct versions
(`1.0.0` and `2.0.0`) the scan reports a conflict. -/
theorem C4_release_issue_conflict_witness :
    find_open_release_issues ⟨0, 0, 0, [], []⟩
      [⟨s2l "I1", 1, s2l "1.0.0 release", s2l "MEMBER"⟩,
       ⟨s2l "I2", 2, s2l "2.0.0 release", s2l "OWNER"⟩] = ⟨false, none⟩ :=
  (C4_release_issue_conflict ⟨0, 0, 0, [], []⟩
      [⟨s2l "I1", 1, s2l "1.0.0 release", s2l "MEMBER"⟩,
       ⟨s2l "I2", 2, s2l "2.0.0 release", s2l "OWNER"⟩]).1
    ⟨⟨s2l "I1", 1, s2l "1.0.0 release", s2l "MEMBER"⟩, by decide,
     ⟨s2l "I2", 2, s2l "2.0.0 release", s2l "OWNER"⟩, by decide, by decide⟩

/-- **C5**.  An open issue whose title matches the release grammar is added to
`release_issues` only when its author association is `MEMBER`, `OWNER` or
`COLLABORATOR`: deleting an issue with any other association from the scanned
collection leaves the result of `find_open_release_issues` unchanged, and if
no scanned issue has an authorized author the scan finds nothing. -/
theorem C5_author_association_required (latest : SemVer) (pre post : List IssueNode)
    (i : IssueNode) (hauth : authorizedAssoc i = false) :
    find_open_release_issues latest (pre ++ i :: post) =
      find_open_release_issues latest (pre ++ post) ∧
    ((∀ j ∈ pre ++ i :: post, authorizedAssoc j = false) →
      find_open_release_issues latest (pre ++ i :: post) = ⟨false, none⟩) := by
  constructor
  · have hstep : ∀ d, scanStep latest d i = d := by
      intro d
      unfold scanStep
      split
      · rw [if_neg (by simp [hauth])]
      · rfl
    unfold find_open_release_issues
    rw [releaseIssuesDict_eq_foldl, releaseIssuesDict_eq_foldl,
      List.foldl_append, List.foldl_append, List.foldl_cons, hstep]
  · intro hall
    have hcond : ∀ j ∈ pre ++ i :: post, (issueMatch latest j && authorizedAssoc j) = false := by
      intro j hj
      rw [hall j hj]
      simp
    have := foldl_no_match latest (pre ++ i :: post) [] hcond
    unfold find_open_release_issues
    rw [releaseIssuesDict_eq_foldl, this]
    rfl

/-- Witness for C5: removing a `NONE`-association issue titled
`"1.0.0 release"` does not change the scan result, and a scan seeing only
that issue finds nothing. -/
theorem C5_author_association_witness :
    find_open_release_issues ⟨0, 0, 0, [], []⟩
        [⟨s2l "I9", 9, s2l "1.0.0 release", s2l "NONE"⟩] =
      find_open_release_issues ⟨0, 0, 0, [], []⟩ [] ∧
    find_open_release_issues ⟨0, 0, 0, [], []⟩
        [⟨s2l "I9", 9, s2l "1.0.0 release", s2l "NONE"⟩] = ⟨false, none⟩ :=
  ⟨(C5_author_association_required ⟨0, 0, 0, [], []⟩ [] []
      ⟨s2l "I9", 9, s2l "1.0.0 release", s2l "NONE"⟩ (by decide)).1,
   (C5_author_association_required ⟨0, 0, 0, [], []⟩ [] []
      ⟨s2l "I9", 9, s2l "1.0.0 release", s2l "NONE"⟩ (by decide)).2 (by decide)⟩

end ReleaseBot

namespace ReleaseBot

/-!
## `fedora.py` — the Distribution Multi-Branch Updater

`Fedora.update_package` and `Fedora.release` drive the `fedpkg` shell
commands.  Each shell step is modelled by a success flag in the environment;
`shell_command(..., fail=...)` returns `False` on failure when `fail` is
false, and raises `ReleaseException` when `fail` is true (`update_package`
passes `fail=is_master`).  `utils.update_spec` raises when no spec file is
present.  The directory listings around `fedpkg_spectool` come from the
environment.  Events record which external commands were invoked.
-/

/-- External operations invoked by the Updater. -/
inductive FedEv where
  | sources
  | updateSpecEv
  | lint
  | spectool
  | newSources
  | commit
  | push
  | build
  | warnNoNewSources
  | switchBranch
  | mergeFF
deriving DecidableEq, Repr

/-- Result of a Python call: a returned value or a propagating exception
(`ReleaseException` in `fedora.py`, `sys.exit` in the legacy copy). -/
inductive PyResult where
  | ret (b : Bool)
  | exc
deriving DecidableEq, Repr

/-- Environment of one `update_package` run. -/
structure UpdEnv where
  specExists : Bool
  sourcesOk : Bool
  lintOk : Bool
  spectoolOk : Bool
  newSourcesOk : Bool
  commitOk : Bool
  pushOk : Bool
  buildOk : Bool
  listingBefore : List (List Char)
  listingAfter : List (List Char)
deriving Repr

/-- Python `repr` of a file name (quote-wrapped; dist-git file names contain
no quotes or backslashes, and only the emptiness of the accumulated string is
ever consumed). -/
def pyRepr (l : List Char) : List Char := '\'' :: (l ++ ['\''])

/-- The `sources` accumulator of `update_package`: `f"{item!r} "` for every
item of the post-`spectool` listing that is absent from the pre-`spectool`
listing. -/
def newSourcesStr (before after : List (List Char)) : List Char :=
  (after.filter (fun i => !before.contains i)).foldl
    (fun acc i => acc ++ pyRepr i ++ [' ']) []

/-- `Fedora.update_package(fedpkg_root, branch, new_release)`: retrieve
sources, rewrite the spec file, lint, snapshot the listing, fetch new
sources, diff the listing; abort with `False` when no new source appeared;
otherwise register sources, commit, push, build.  Failures of shell steps
raise on the master branch (`fail=is_master`) and return `False` elsewhere.
`Fedora.fedpkg_build` has no `return` statement (it only appends to
`self.builds`), so it returns `None`; `if not self.fedpkg_build(...)` is
therefore always taken and `update_package` returns `False` even after a
successful build — it can never return `True`. -/
def update_package (env : UpdEnv) (branch : List Char) : List FedEv × PyResult :=
  let isM := pyLower branch = s2l "master"
  if !env.sourcesOk then ([.sources], if isM then .exc else .ret false)
  else if !env.specExists then ([.sources, .updateSpecEv], .exc)
  else if !env.lintOk then
    ([.sources, .updateSpecEv, .lint], if isM then .exc else .ret false)
  else if !env.spectoolOk then
    ([.sources, .updateSpecEv, .lint, .spectool], if isM then .exc else .ret false)
  else if (pyStrip (newSourcesStr env.listingBefore env.listingAfter)).isEmpty then
    ([.sources, .updateSpecEv, .lint, .spectool, .warnNoNewSources], .ret false)
  else if !env.newSourcesOk then
    ([.sources, .updateSpecEv, .lint, .spectool, .newSources],
      if isM then .exc else .ret false)
  else if !env.commitOk then
    ([.sources, .updateSpecEv, .lint, .spectool, .newSources, .commit],
      if isM then .exc else .ret false)
  else if !env.pushOk then
    ([.sources, .updateSpecEv, .lint, .spectool, .newSources, .commit, .push],
      if isM then .exc else .ret false)
  else if !env.buildOk then
    ([.sources, .updateSpecEv, .lint, .spectool, .newSources, .commit, .push, .build],
      if isM then .exc else .ret false)
  else
    ([.sources, .updateSpecEv, .lint, .spectool, .newSources, .commit, .push, .build],
      .ret false)

lemma newSourcesStr_nil_of_no_new (before after : List (List Char))
    (h : after.filter (fun i => !before.contains i) = []) :
    newSourcesStr before after = [] := by
  unfold newSourcesStr
  rw [h]
  rfl

/-- **C7**.  When the post-`spectool` directory listing contains no file that
was absent before (`new sources` empty), `update_package` stops with the "no
new sources" warning and returns `False`, without invoking `fedpkg
new-sources`, `fedpkg commit`, `fedpkg push` or `fedpkg build` on that
branch. -/
theorem C7_no_new_sources_aborts (env : UpdEnv) (branch : List Char)
    (hsrc : env.sourcesOk = true) (hspec : env.specExists = true)
    (hlint : env.lintOk = true) (htool : env.spectoolOk = true)
    (hnone : env.listingAfter.filter (fun i => !env.listingBefore.contains i) = []) :
    update_package env branch =
      ([.sources, .updateSpecEv, .lint, .spectool, .warnNoNewSources], .ret false) ∧
    FedEv.newSources ∉ (update_package env branch).1 ∧
    FedEv.commit ∉ (update_package env branch).1 ∧
    FedEv.push ∉ (update_package env branch).1 ∧
    FedEv.build ∉ (update_package env branch).1 := by
  have hempty : (pyStrip (newSourcesStr env.listingBefore env.listingAfter)).isEmpty = true := by
    rw [newSourcesStr_nil_of_no_new _ _ hnone]
    rfl
  have hres : update_package env branch =
      ([.sources, .updateSpecEv, .lint, .spectool, .warnNoNewSources], .ret false) := by
    unfold update_package
    rw [hsrc, hspec, hlint, htool, hempty]
    simp
  refine ⟨hres, ?_, ?_, ?_, ?_⟩ <;> rw [hres] <;> decide

/-- Witness for C7: a concrete run that fetched sources, rewrote the spec and
linted it, but whose `spectool` fetch produced no file that was not already
present, aborts with the no-new-sources outcome. -/
theorem C7_no_new_sources_witness :
    update_package
      ⟨true, true, true, true, true, true, true, true,
        [s2l "pkg.spec", s2l "v1.tar.gz"], [s2l "pkg.spec", s2l "v1.tar.gz"]⟩
      (s2l "f28") =
      ([.sources, .updateSpecEv, .lint, .spectool, .warnNoNewSources], .ret false) :=
  (C7_no_new_sources_aborts
      ⟨true, true, true, true, true, true, true, true,
        [s2l "pkg.spec", s2l "v1.tar.gz"], [s2l "pkg.spec", s2l "v1.tar.gz"]⟩
      (s2l "f28") rfl rfl rfl rfl (by decide)).1

/-!
### The auxiliary-branch fan-out loops

`fedora.py` (`Fedora.release`, the maintained copy):

```python
for branch in new_release['fedora_branches']:
    if not self.fedpkg_switch_branch(fedpkg_root, branch, fail=False): continue
    if not self.fedpkg_merge(fedpkg_root, branch, True, False):
        self.update_package(fedpkg_root, branch, new_release)
        continue
    if not self.fedpkg_push(fedpkg_root, branch, False): continue
    self.fedpkg_build(fedpkg_root, branch, False, False)
```

The legacy copy `release_bot.py` (`Fedora.release`) differs in the last two
lines: the build call sits *after* the `continue` inside the push-failure
branch and is therefore unreachable:

```python
    if not self.fedpkg_push(fedpkg_root, branch, False):
        continue
        self.fedpkg_build(fedpkg_root, branch, False, False)
```
-/

/-- Environment of one auxiliary branch: outcomes of the switch / ff-merge /
push / build shell commands, and the environment of the from-scratch
`update_package` fallback. -/
structure BranchEnv where
  switchOk : Bool
  mergeOk : Bool
  pushOk : Bool
  buildOk : Bool
  upd : UpdEnv
deriving Repr

/-- One auxiliary-branch iteration of `Fedora.release` in `fedora.py`.
Returns the invoked events and `none` when the loop continues with the next
branch (`some ()` when an exception escapes the iteration, which only the
`update_package` fallback can raise). -/
def auxBranchFedoraPy (b : BranchEnv) (branch : List Char) :
    List FedEv × Option Unit :=
  if !b.switchOk then ([.switchBranch], none)
  else if !b.mergeOk then
    let (evs, r) := update_package b.upd branch
    ([.switchBranch, .mergeFF] ++ evs,
      match r with
      | .exc => some ()
      | .ret _ => none)
  else if !b.pushOk then ([.switchBranch, .mergeFF, .push], none)
  else ([.switchBranch, .mergeFF, .push, .build], none)

/-- One auxiliary-branch iteration of the legacy `Fedora.release` in
`release_bot.py`: identical until the push, but the build call is dead code
(it follows a `continue`), so a successful push ends the iteration with no
build. -/
def auxBranchLegacy (b : BranchEnv) (branch : List Char) :
    List FedEv × Option Unit :=
  if !b.switchOk then ([.switchBranch], none)
  else if !b.mergeOk then
    let (evs, r) := update_package b.upd branch
    ([.switchBranch, .mergeFF] ++ evs,
      match r with
      | .exc => some ()
      | .ret _ => none)
  else if !b.pushOk then ([.switchBranch, .mergeFF, .push], none)
  else ([.switchBranch, .mergeFF, .push], none)

/-- The fan-out over the configured auxiliary branches: per-branch event
traces in order; the boolean records whether the run was aborted by an
escaping exception. -/
def auxLoop (step : BranchEnv → List Char → List FedEv × Option Unit) :
    List (BranchEnv × List Char) → List (List Char × List FedEv) × Bool
  | [] => ([], false)
  | (b, br) :: rest =>
    let (evs, exc) := step b br
    match exc with
    | some _ => ([(br, evs)], true)
    | none =>
      let (rs, ab) := auxLoop step rest
      ((br, evs) :: rs, ab)

lemma update_package_spec_mem (env : UpdEnv) (branch : List Char)
    (hsrc : env.sourcesOk = true) :
    FedEv.updateSpecEv ∈ (update_package env branch).1 := by
  unfold update_package
  simp only [hsrc, Bool.not_true, Bool.false_eq_true, if_false]
  split_ifs <;> decide

lemma update_package_no_exc (env : UpdEnv) (branch : List Char)
    (hspec : env.specExists = true) (hbm : ¬ pyLower branch = s2l "master") :
    (update_package env branch).2 ≠ .exc := by
  unfold update_package
  simp only [hspec, Bool.not_true, Bool.false_eq_true, if_false]
  split_ifs <;> simp [hbm]

/-- Behaviour of the maintained (`fedora.py`) auxiliary-branch iteration:
a failed switch only skips the branch; a failed fast-forward merge invokes
the full `update_package` fallback — including its spec rewrite — and, for a
non-master branch whose spec file is present, continues with the remaining
branches; a successful merge invokes exactly a push and a build, with no
second spec rewrite; a failed push only skips the branch. -/
theorem fedoraPy_aux_branch_behaviour (b : BranchEnv) (branch : List Char) :
    (b.switchOk = false → auxBranchFedoraPy b branch = ([.switchBranch], none)) ∧
    (b.switchOk = true → b.mergeOk = false → b.upd.specExists = true →
      b.upd.sourcesOk = true → ¬ pyLower branch = s2l "master" →
      auxBranchFedoraPy b branch =
        ([.switchBranch, .mergeFF] ++ (update_package b.upd branch).1, none) ∧
      FedEv.updateSpecEv ∈ (auxBranchFedoraPy b branch).1) ∧
    (b.switchOk = true → b.mergeOk = true → b.pushOk = true →
      auxBranchFedoraPy b branch = ([.switchBranch, .mergeFF, .push, .build], none)) ∧
    (b.switchOk = true → b.mergeOk = true →
      FedEv.updateSpecEv ∉ (auxBranchFedoraPy b branch).1) := by
  refine ⟨?_, ?_, ?_, ?_⟩
  · intro h
    unfold auxBranchFedoraPy
    rw [h]
    rfl
  · intro hs hm hspec hsrc hbm
    have hnotexc := update_package_no_exc b.upd branch hspec hbm
    have hiter : auxBranchFedoraPy b branch =
        ([.switchBranch, .mergeFF] ++ (update_package b.upd branch).1, none) := by
      unfold auxBranchFedoraPy
      rw [hs, hm]
      simp only [Bool.not_true, Bool.false_eq_true, if_false, Bool.not_false, if_true]
      cases hr : (update_package b.upd branch) with
      | mk evs r =>
        cases r with
        | exc => exact absurd (by rw [hr]) hnotexc
        | ret v => simp
    refine ⟨hiter, ?_⟩
    rw [hiter]
    have := update_package_spec_mem b.upd branch hsrc
    simp [this]
  · intro hs hm hp
    unfold auxBranchFedoraPy
    rw [hs, hm, hp]
    rfl
  · intro hs hm
    unfold auxBranchFedoraPy
    rw [hs, hm]
    by_cases hp : b.pushOk
    · rw [hp]
      simp
    · rw [Bool.not_eq_true] at hp
      rw [hp]
      simp

/-- The all-success auxiliary-branch environment used to exhibit the legacy
loop's unreachable build call. -/
def goodBranchEnv : BranchEnv :=
  ⟨true, true, true, true, ⟨true, true, true, true, true, true, true, true, [], []⟩⟩

/-- **C6** (code bug in the legacy copy).  On an auxiliary branch where the
switch, the fast-forward merge and the push all succeed, the maintained
Updater (`fedora.py`) invokes switch, merge, push and build; the legacy copy
(`release_bot.py`) invokes switch, merge and push but never requests the
build — its `fedpkg_build` call stands after a `continue` inside the
push-failure branch and is unreachable. -/
theorem C6_legacy_loop_build_unreachable :
    auxBranchFedoraPy goodBranchEnv (s2l "f28") =
      ([.switchBranch, .mergeFF, .push, .build], none) ∧
    auxBranchLegacy goodBranchEnv (s2l "f28") =
      ([.switchBranch, .mergeFF, .push], none) ∧
    FedEv.build ∉ (auxBranchLegacy goodBranchEnv (s2l "f28")).1 ∧
    auxLoop auxBranchLegacy [(goodBranchEnv, s2l "f28")] =
      ([(s2l "f28", [.switchBranch, .mergeFF, .push])], false) := by
  refine ⟨by decide, by decide, by decide, ?_⟩
  rfl

end ReleaseBot

namespace ReleaseBot

/-!
## A generic left-to-right `re.sub` engine

`utils.update_spec` performs three `re.sub` calls.  Each is embedded through
a *matcher*: given the suffix of the text starting at the current position,
the matcher either returns `(replacement, remainder after the match)` or
`none`.  `subAll` scans left to right, emits replacements for matches, and
continues after each match without rescanning the replacement — exactly
`re.sub`'s semantics.  The recursion is fuelled to keep it computable by the
kernel; every matcher used consumes at least one character.
-/

/-- Fuelled scan of `re.sub`. -/
def subAllF (m : List Char → Option (List Char × List Char)) :
    Nat → List Char → List Char
  | 0, l => l
  | _ + 1, [] => []
  | f + 1, c :: rest =>
    match m (c :: rest) with
    | some (rep, rem) => rep ++ subAllF m f rem
    | none => c :: subAllF m f rest

/-- A matcher that always consumes at least one character. -/
def Shrinks (m : List Char → Option (List Char × List Char)) : Prop :=
  ∀ s rep rem, m s = some (rep, rem) → rem.length < s.length

lemma subAllF_nil (m : List Char → Option (List Char × List Char)) :
    ∀ f, subAllF m f [] = [] := by
  intro f
  cases f <;> rfl

lemma subAllF_cons (m : List Char → Option (List Char × List Char))
    (f : Nat) (c : Char) (rest : List Char) :
    subAllF m (f + 1) (c :: rest) =
      match m (c :: rest) with
      | some (rep, rem) => rep ++ subAllF m f rem
      | none => c :: subAllF m f rest := rfl

lemma subAllF_congr (m : List Char → Option (List Char × List Char))
    (hm : Shrinks m) :
    ∀ f1 f2 l, l.length ≤ f1 → l.length ≤ f2 → subAllF m f1 l = subAllF m f2 l := by
  intro f1
  induction f1 with
  | zero =>
    intro f2 l h1 _
    have : l = [] := List.length_eq_zero.mp (Nat.le_zero.mp h1)
    subst this
    rw [subAllF_nil, subAllF_nil]
  | succ f ih =>
    intro f2 l h1 h2
    cases l with
    | nil => rw [subAllF_nil, subAllF_nil]
    | cons c rest =>
      cases f2 with
      | zero => exact absurd h2 (by simp)
      | succ f2' =>
        have hr1 : rest.length ≤ f := by
          simp only [List.length_cons] at h1
          omega
        have hr2 : rest.length ≤ f2' := by
          simp only [List.length_cons] at h2
          omega
        rw [subAllF_cons, subAllF_cons]
        cases hmr : m (c :: rest) with
        | some pr =>
          obtain ⟨rep, rem⟩ := pr
          have hlt := hm _ _ _ hmr
          have hrem : rem.length ≤ rest.length := by
            simp only [List.length_cons] at hlt
            omega
          simp only
          rw [ih f2' rem (le_trans hrem hr1) (le_trans hrem hr2)]
        | none =>
          simp only
          rw [ih f2' rest hr1 hr2]

/-- `re.sub(pattern, repl, text)` for the matcher `m`. -/
def subAll (m : List Char → Option (List Char × List Char)) (l : List Char) :
    List Char :=
  subAllF m l.length l

lemma subAll_cons_match (m : List Char → Option (List Char × List Char))
    (hm : Shrinks m) (c : Char) (rest rep rem : List Char)
    (h : m (c :: rest) = some (rep, rem)) :
    subAll m (c :: rest) = rep ++ subAll m rem := by
  have hlt := hm _ _ _ h
  have hrem : rem.length ≤ rest.length := by
    simp only [List.length_cons] at hlt
    omega
  unfold subAll
  show subAllF m (rest.length + 1) (c :: rest) = rep ++ subAllF m rem.length rem
  rw [subAllF_cons, h]
  simp only
  rw [subAllF_congr m hm rest.length rem.length rem hrem le_rfl]

lemma subAll_cons_no (m : List Char → Option (List Char × List Char))
    (hm : Shrinks m) (c : Char) (rest : List Char) (h : m (c :: rest) = none) :
    subAll m (c :: rest) = c :: subAll m rest := by
  unfold subAll
  show subAllF m (rest.length + 1) (c :: rest) = c :: subAllF m rest.length rest
  rw [subAllF_cons, h]

lemma subAll_no_match_front (m : List Char → Option (List Char × List Char))
    (hm : Shrinks m) :
    ∀ a b : List Char, (∀ i, i < a.length → m ((a ++ b).drop i) = none) →
      subAll m (a ++ b) = a ++ subAll m b := by
  intro a
  induction a with
  | nil => intro b _; rfl
  | cons c a' ih =>
    intro b h
    have h0 : m ((c :: a') ++ b) = none := by
      have := h 0 (by simp)
      simpa using this
    rw [List.cons_append, subAll_cons_no m hm c (a' ++ b) h0]
    rw [ih b (fun i hi => by
      have := h (i + 1) (by simp; omega)
      simpa using this)]
    rfl

lemma subAll_all_no_match (m : List Char → Option (List Char × List Char))
    (hm : Shrinks m) :
    ∀ l : List Char, (∀ i, i < l.length → m (l.drop i) = none) → subAll m l = l := by
  intro l
  induction l with
  | nil => intro _; rfl
  | cons c rest ih =>
    intro h
    have h0 : m (c :: rest) = none := by simpa using h 0 (by simp)
    rw [subAll_cons_no m hm c rest h0]
    rw [ih (fun i hi => by simpa using h (i + 1) (by simp; omega))]

/-- The designated-occurrence lemma: the text is `a ++ mid ++ b`, the matcher
finds no match starting inside `a`, matches `mid` exactly (continuing at
`b`), and finds no match inside `b`; then the sub rewrites `mid` to its
replacement and leaves `a` and `b` unchanged. -/
lemma subAll_replace (m : List Char → Option (List Char × List Char))
    (hm : Shrinks m) (a mid b rep : List Char)
    (hmatch : m (mid ++ b) = some (rep, b))
    (hpre : ∀ i, i < a.length → m ((a ++ (mid ++ b)).drop i) = none)
    (hpost : ∀ i, i < b.length → m (b.drop i) = none) :
    subAll m (a ++ mid ++ b) = a ++ rep ++ b := by
  have hmidne : mid ≠ [] := by
    intro h0
    subst h0
    have := hm _ _ _ hmatch
    simp at this
  rw [List.append_assoc]
  rw [subAll_no_match_front m hm a (mid ++ b) hpre]
  cases hmid : mid with
  | nil => exact absurd hmid hmidne
  | cons c midr =>
    subst hmid
    rw [List.cons_append, subAll_cons_match m hm c (midr ++ b) rep b (by
      rw [← List.cons_append]; exact hmatch)]
    rw [subAll_all_no_match m hm b hpost]
    simp

end ReleaseBot

namespace ReleaseBot

/-!
## `utils.update_spec`

```python
if not os.path.isfile(spec_path):
    raise ReleaseException("No spec file found in dist-git repository!")
locale.setlocale(locale.LC_TIME, "en_US.UTF-8")
changelog = (f"* {datetime.datetime.now():%a %b %d %Y} {new_release.author_name!s} "
             f"<{new_release.author_email!s}> {new_release.version}-1\n")
if new_release.changelog:
    for item in new_release.changelog: changelog += f"- {item}\n"
else:
    changelog += f"- {new_release.version} release\n"
spec = re.sub(r'(Version:\s*)([0-9]|[.])*', r'\g<1>' + new_release.version, spec)
spec = re.sub(r'(Release:\s*)([0-9]*)(.*)', r'\g<1>1\g<3>', spec)
spec = re.sub(r'(%changelog\n)', r'\g<1>' + changelog + '\n', spec)
```

The three patterns are deterministic: `\s*`, `([0-9]|[.])*` and `([0-9]*)`
are greedy with nothing after them that could fail, and `.*` runs to the end
of the line.  They are embedded as matchers for `subAll`.
-/

/-- The character class `([0-9]|[.])` of the version pattern. -/
def isVerChar (c : Char) : Bool := isDig c || c = '.'

def litVersion : List Char := s2l "Version:"
def litRelease : List Char := s2l "Release:"
def litChangelog : List Char := s2l "%changelog\n"

/-- Matcher of `re.sub(r'(Version:\s*)([0-9]|[.])*', r'\g<1>' + version, ...)`:
at a position starting with `Version:`, the match extends over the whitespace
run and the digit/dot run; the replacement keeps group 1 and appends the new
version. -/
def versionMatcher (newV : List Char) (s : List Char) :
    Option (List Char × List Char) :=
  if litVersion.isPrefixOf s then
    let after := s.drop 8
    let ws := after.takeWhile isPySpace
    let rem := (after.dropWhile isPySpace).dropWhile isVerChar
    some (litVersion ++ ws ++ newV, rem)
  else none

/-- Matcher of `re.sub(r'(Release:\s*)([0-9]*)(.*)', r'\g<1>1\g<3>', ...)`:
after `Release:` and its whitespace run, the digit run (group 2) is replaced
by `1` and the rest of the line (group 3, `.` does not cross `'\n'`) is kept. -/
def releaseMatcher (s : List Char) : Option (List Char × List Char) :=
  if litRelease.isPrefixOf s then
    let after := s.drop 8
    let ws := after.takeWhile isPySpace
    let a2 := after.dropWhile isPySpace
    let a3 := a2.dropWhile isDig
    let lineRest := a3.takeWhile (fun c => ¬ c = '\n')
    let rem := a3.dropWhile (fun c => ¬ c = '\n')
    some (litRelease ++ ws ++ '1' :: lineRest, rem)
  else none

/-- Matcher of `re.sub(r'(%changelog\n)', r'\g<1>' + changelog + '\n', ...)`. -/
def changelogMatcher (stanza : List Char) (s : List Char) :
    Option (List Char × List Char) :=
  if litChangelog.isPrefixOf s then
    some (litChangelog ++ stanza ++ ['\n'], s.drop 11)
  else none

lemma length_dropWhile_le (p : Char → Bool) (l : List Char) :
    (l.dropWhile p).length ≤ l.length := by
  have h : List.Sublist (List.dropWhile p l) l := List.dropWhile_sublist p
  exact h.length_le

lemma versionMatcher_shrinks (newV : List Char) : Shrinks (versionMatcher newV) := by
  intro s rep rem h
  unfold versionMatcher at h
  by_cases hp : litVersion.isPrefixOf s
  · rw [if_pos hp] at h
    have hlen : 8 ≤ s.length := by
      have := (List.isPrefixOf_iff_prefix.mp hp).length_le
      simpa using this
    simp only [Option.some.injEq, Prod.mk.injEq] at h
    obtain ⟨-, h2⟩ := h
    subst h2
    have s1 : (((s.drop 8).dropWhile isPySpace).dropWhile isVerChar).length ≤
        ((s.drop 8).dropWhile isPySpace).length := length_dropWhile_le _ _
    have s2 : (((s.drop 8)).dropWhile isPySpace).length ≤ (s.drop 8).length :=
      length_dropWhile_le _ _
    have s3 : (s.drop 8).length = s.length - 8 := List.length_drop 8 s
    omega
  · rw [if_neg hp] at h
    exact absurd h (by simp)

lemma releaseMatcher_shrinks : Shrinks releaseMatcher := by
  intro s rep rem h
  unfold releaseMatcher at h
  by_cases hp : litRelease.isPrefixOf s
  · rw [if_pos hp] at h
    have hlen : 8 ≤ s.length := by
      have := (List.isPrefixOf_iff_prefix.mp hp).length_le
      simpa using this
    simp only [Option.some.injEq, Prod.mk.injEq] at h
    obtain ⟨-, h2⟩ := h
    subst h2
    have s1 : ((((s.drop 8).dropWhile isPySpace).dropWhile isDig).dropWhile
        (fun c => decide (¬ c = '\n'))).length ≤
        (((s.drop 8).dropWhile isPySpace).dropWhile isDig).length :=
      length_dropWhile_le _ _
    have s2 : (((s.drop 8).dropWhile isPySpace).dropWhile isDig).length ≤
        ((s.drop 8).dropWhile isPySpace).length := length_dropWhile_le _ _
    have s3 : ((s.drop 8).dropWhile isPySpace).length ≤ (s.drop 8).length :=
      length_dropWhile_le _ _
    have s4 : (s.drop 8).length = s.length - 8 := List.length_drop 8 s
    omega
  · rw [if_neg hp] at h
    exact absurd h (by simp)

lemma changelogMatcher_shrinks (stanza : List Char) :
    Shrinks (changelogMatcher stanza) := by
  intro s rep rem h
  unfold changelogMatcher at h
  by_cases hp : litChangelog.isPrefixOf s
  · rw [if_pos hp] at h
    have hlen : 11 ≤ s.length := by
      have := (List.isPrefixOf_iff_prefix.mp hp).length_le
      simpa using this
    simp only [Option.some.injEq, Prod.mk.injEq] at h
    obtain ⟨-, h2⟩ := h
    subst h2
    rw [List.length_drop]
    omega
  · rw [if_neg hp] at h
    exact absurd h (by simp)

/-- The release facts `update_spec` consumes (`new_release` in `utils.py`):
version, author attribution and the optional manual changelog entries
(an empty list is falsy in Python, selecting the default line). -/
structure NewRelease where
  version : List Char
  author_name : List Char
  author_email : List Char
  changelog : List (List Char)
deriving Repr

/-- The changelog stanza `update_spec` builds: a header line
`* <date> <name> <email> <version>-1` and one `- ...` line per manual
changelog entry, or the single default line `- <version> release`. -/
def specChangelogStanza (today : List Char) (nr : NewRelease) : List Char :=
  s2l "* " ++ today ++ ' ' :: nr.author_name ++ s2l " <" ++ nr.author_email ++
    s2l "> " ++ nr.version ++ s2l "-1\n" ++
  (if nr.changelog.isEmpty then s2l "- " ++ nr.version ++ s2l " release\n"
   else (nr.changelog.map (fun item => s2l "- " ++ item ++ s2l "\n")).flatten)

/-- `utils.update_spec(spec_path, new_release)`: raise when the spec file is
missing, otherwise rewrite the content with the three substitutions.  `today`
is `datetime.datetime.now():%a %b %d %Y`. -/
def update_spec (specExists : Bool) (content : List Char) (nr : NewRelease)
    (today : List Char) : Except Unit (List Char) :=
  if !specExists then .error ()
  else
    let c1 := subAll (versionMatcher nr.version) content
    let c2 := subAll releaseMatcher c1
    let c3 := subAll (changelogMatcher (specChangelogStanza today nr)) c2
    .ok c3

end ReleaseBot

namespace ReleaseBot

lemma takeWhile_all_append (p : Char → Bool) (a b : List Char) (ha : a.all p = true)
    (hb : ∀ c, b.head? = some c → p c = false) :
    (a ++ b).takeWhile p = a ∧ (a ++ b).dropWhile p = b := by
  induction a with
  | nil =>
    simp only [List.nil_append]
    cases b with
    | nil => exact ⟨rfl, rfl⟩
    | cons c r =>
      have hc : p c = false := hb c rfl
      constructor
      · rw [List.takeWhile_cons_of_neg (by simp [hc])]
      · rw [List.dropWhile_cons_of_neg (by simp [hc])]
  | cons x a' ih =>
    have hx : p x = true := by
      simp only [List.all_cons, Bool.and_eq_true] at ha
      exact ha.1
    have ha' : a'.all p = true := by
      simp only [List.all_cons, Bool.and_eq_true] at ha
      exact ha.2
    obtain ⟨ih1, ih2⟩ := ih ha'
    constructor
    · rw [List.cons_append, List.takeWhile_cons_of_pos (by simp [hx]), ih1]
    · rw [List.cons_append, List.dropWhile_cons_of_pos (by simp [hx]), ih2]

lemma space_not_verChar (c : Char) (h : isPySpace c = true) : isVerChar c = false := by
  unfold isPySpace at h
  simp only [Bool.or_eq_true, decide_eq_true_eq] at h
  rcases h with ((((h | h) | h) | h) | h) | h <;> subst h <;> decide

lemma verChar_not_space (c : Char) (h : isVerChar c = true) : isPySpace c = false := by
  by_cases hs : isPySpace c
  · rw [space_not_verChar c hs] at h
    exact absurd h (by simp)
  · simpa using hs

lemma dig_not_space (c : Char) (h : isDig c = true) : isPySpace c = false :=
  verChar_not_space c (by unfold isVerChar; rw [h]; rfl)

lemma versionMatcher_at (newV ws oldV tail : List Char)
    (hws : ws.all isPySpace = true) (hold : oldV.all isVerChar = true)
    (holdne : oldV ≠ [])
    (htail : ∀ c, tail.head? = some c → isVerChar c = false) :
    versionMatcher newV (litVersion ++ (ws ++ (oldV ++ tail))) =
      some (litVersion ++ ws ++ newV, tail) := by
  unfold versionMatcher
  rw [if_pos (List.isPrefixOf_iff_prefix.mpr (List.prefix_append _ _))]
  have h8 : litVersion.length = 8 := rfl
  have hdrop : (litVersion ++ (ws ++ (oldV ++ tail))).drop 8 = ws ++ (oldV ++ tail) := by
    rw [← h8, List.drop_left]
  have hheadv : ∀ c, (oldV ++ tail).head? = some c → isPySpace c = false := by
    intro c hc
    cases oldV with
    | nil => exact absurd rfl holdne
    | cons o os =>
      rw [List.cons_append] at hc
      simp only [List.head?_cons, Option.some.injEq] at hc
      subst hc
      have ho : isVerChar o = true := by
        simp only [List.all_cons, Bool.and_eq_true] at hold
        exact hold.1
      exact verChar_not_space o ho
  obtain ⟨htw, hdw⟩ := takeWhile_all_append isPySpace ws (oldV ++ tail) hws hheadv
  obtain ⟨-, hdw2⟩ := takeWhile_all_append isVerChar oldV tail hold htail
  simp only [hdrop, htw, hdw, hdw2, List.append_assoc]

lemma releaseMatcher_at (ws relD relT tail : List Char)
    (hws : ws.all isPySpace = true) (hd : relD.all isDig = true) (hdne : relD ≠ [])
    (ht1 : relT.all (fun c => decide (¬ c = '\n')) = true)
    (ht2 : ∀ c, relT.head? = some c → isDig c = false)
    (htail : tail.head? = some '\n') :
    releaseMatcher (litRelease ++ (ws ++ (relD ++ (relT ++ tail)))) =
      some (litRelease ++ ws ++ '1' :: relT, tail) := by
  unfold releaseMatcher
  rw [if_pos (List.isPrefixOf_iff_prefix.mpr (List.prefix_append _ _))]
  have h8 : litRelease.length = 8 := rfl
  have hdrop : (litRelease ++ (ws ++ (relD ++ (relT ++ tail)))).drop 8 =
      ws ++ (relD ++ (relT ++ tail)) := by
    rw [← h8, List.drop_left]
  have hheadd : ∀ c, (relD ++ (relT ++ tail)).head? = some c → isPySpace c = false := by
    intro c hc
    cases relD with
    | nil => exact absurd rfl hdne
    | cons o os =>
      rw [List.cons_append] at hc
      simp only [List.head?_cons, Option.some.injEq] at hc
      subst hc
      have ho : isDig o = true := by
        simp only [List.all_cons, Bool.and_eq_true] at hd
        exact hd.1
      exact dig_not_space o ho
  have hheadt : ∀ c, (relT ++ tail).head? = some c → isDig c = false := by
    intro c hc
    cases relT with
    | nil =>
      rw [List.nil_append] at hc
      rw [htail] at hc
      simp only [Option.some.injEq] at hc
      subst hc
      decide
    | cons t ts =>
      rw [List.cons_append] at hc
      simp only [List.head?_cons, Option.some.injEq] at hc
      subst hc
      exact ht2 _ rfl
  have hheadn : ∀ c, tail.head? = some c → (fun c => decide (¬ c = '\n')) c = false := by
    intro c hc
    rw [htail] at hc
    simp only [Option.some.injEq] at hc
    subst hc
    decide
  obtain ⟨htw, hdw⟩ :=
    takeWhile_all_append isPySpace ws (relD ++ (relT ++ tail)) hws hheadd
  obtain ⟨-, hdwD⟩ := takeWhile_all_append isDig relD (relT ++ tail) hd hheadt
  obtain ⟨htwT, hdwT⟩ :=
    takeWhile_all_append (fun c => decide (¬ c = '\n')) relT tail ht1 hheadn
  simp only [hdrop, htw, hdw, hdwD, htwT, hdwT, List.append_assoc]

lemma changelogMatcher_at (stanza tail : List Char) :
    changelogMatcher stanza (litChangelog ++ tail) =
      some (litChangelog ++ stanza ++ ['\n'], tail) := by
  unfold changelogMatcher
  rw [if_pos (List.isPrefixOf_iff_prefix.mpr (List.prefix_append _ _))]
  have h11 : litChangelog.length = 11 := rfl
  have hdrop : (litChangelog ++ tail).drop 11 = tail := by
    rw [← h11, List.drop_left]
  rw [hdrop]

end ReleaseBot

namespace ReleaseBot

/-!
### The structured spec file

A spec file with one `Version:` field, one `Release:` field and one
`%changelog` header is described by its pieces: `A` before the version field,
`ws1`/`oldV` the field's whitespace and old value, `B` between the fields,
`ws2`/`relD`/`relT` the release field's whitespace, counter digits and
line tail (e.g. `%{?dist}`), `C` between the release field and the changelog
header, and `D` the existing changelog entries.
-/

def specTailR (C D : List Char) : List Char := C ++ (litChangelog ++ D)

def specTailV (B ws2 relD relT C D : List Char) : List Char :=
  B ++ (litRelease ++ (ws2 ++ (relD ++ (relT ++ specTailR C D))))

def specContent (A ws1 oldV B ws2 relD relT C D : List Char) : List Char :=
  A ++ (litVersion ++ (ws1 ++ (oldV ++ specTailV B ws2 relD relT C D)))

def specAfterV (A ws1 newV B ws2 relD relT C D : List Char) : List Char :=
  A ++ (litVersion ++ (ws1 ++ (newV ++ specTailV B ws2 relD relT C D)))

def specAfterVR (A ws1 newV B ws2 relT C D : List Char) : List Char :=
  A ++ (litVersion ++ (ws1 ++ (newV ++
    (B ++ (litRelease ++ (ws2 ++ ('1' :: (relT ++ specTailR C D))))))))

def specFinal (A ws1 newV B ws2 relT C stanza D : List Char) : List Char :=
  A ++ (litVersion ++ (ws1 ++ (newV ++
    (B ++ (litRelease ++ (ws2 ++ ('1' :: (relT ++
      (C ++ (litChangelog ++ (stanza ++ ('\n' :: D))))))))))))

/-- **C8**.  On an existing spec file (in the structured shape above, with no
stray occurrence of the three patterns), `update_spec` replaces the version
field's value with the new version, resets the release counter to `1`
(keeping the rest of the release line), and prepends directly under the
`%changelog` header a new stanza dated with the current date, attributed to
the release author's name and email, itemized from the release's changelog
entries when present and otherwise consisting of the single default line
`<version> release`; everything else is unchanged.  When the spec file does
not exist, it raises and modifies nothing. -/
theorem C8_update_spec_rewrites (nr : NewRelease) (today : List Char)
    (A ws1 oldV B ws2 relD relT C D : List Char)
    (hws1 : ws1.all isPySpace = true) (hold : oldV.all isVerChar = true)
    (holdne : oldV ≠ []) (hB : B.head? = some '\n')
    (hws2 : ws2.all isPySpace = true) (hrelD : relD.all isDig = true)
    (hrelDne : relD ≠ [])
    (hrelT1 : relT.all (fun c => decide (¬ c = '\n')) = true)
    (hrelT2 : ∀ c, relT.head? = some c → isDig c = false)
    (hC : C.head? = some '\n')
    (hV1 : ∀ i, i < A.length →
      versionMatcher nr.version ((specContent A ws1 oldV B ws2 relD relT C D).drop i) = none)
    (hV2 : ∀ i, i < (specTailV B ws2 relD relT C D).length →
      versionMatcher nr.version ((specTailV B ws2 relD relT C D).drop i) = none)
    (hR1 : ∀ i, i < (A ++ (litVersion ++ (ws1 ++ (nr.version ++ B)))).length →
      releaseMatcher ((specAfterV A ws1 nr.version B ws2 relD relT C D).drop i) = none)
    (hR2 : ∀ i, i < (specTailR C D).length →
      releaseMatcher ((specTailR C D).drop i) = none)
    (hCh1 : ∀ i, i < (A ++ (litVersion ++ (ws1 ++ (nr.version ++
        (B ++ (litRelease ++ (ws2 ++ (('1' :: relT) ++ C)))))))).length →
      changelogMatcher (specChangelogStanza today nr)
        ((specAfterVR A ws1 nr.version B ws2 relT C D).drop i) = none)
    (hCh2 : ∀ i, i < D.length →
      changelogMatcher (specChangelogStanza today nr) (D.drop i) = none) :
    update_spec true (specContent A ws1 oldV B ws2 relD relT C D) nr today =
      .ok (specFinal A ws1 nr.version B ws2 relT C
            (specChangelogStanza today nr) D) ∧
    update_spec false (specContent A ws1 oldV B ws2 relD relT C D) nr today =
      .error () := by
  have hBne : B ≠ [] := by
    intro h0
    rw [h0] at hB
    exact absurd hB (by simp)
  have hCne : C ≠ [] := by
    intro h0
    rw [h0] at hC
    exact absurd hC (by simp)
  -- pass 1: the version substitution
  have htailv : ∀ c, (specTailV B ws2 relD relT C D).head? = some c →
      isVerChar c = false := by
    intro c hc
    unfold specTailV at hc
    rw [List.head?_append_of_ne_nil B hBne, hB] at hc
    simp only [Option.some.injEq] at hc
    subst hc
    decide
  have hmat1 :
      versionMatcher nr.version
        ((litVersion ++ ws1 ++ oldV) ++ specTailV B ws2 relD relT C D) =
      some (litVersion ++ ws1 ++ nr.version, specTailV B ws2 relD relT C D) := by
    rw [show (litVersion ++ ws1 ++ oldV) ++ specTailV B ws2 relD relT C D =
        litVersion ++ (ws1 ++ (oldV ++ specTailV B ws2 relD relT C D)) from by
      simp [List.append_assoc]]
    exact versionMatcher_at nr.version ws1 oldV _ hws1 hold holdne htailv
  have hpre1 : ∀ i, i < A.length →
      versionMatcher nr.version
        ((A ++ ((litVersion ++ ws1 ++ oldV) ++ specTailV B ws2 relD relT C D)).drop i) =
        none := by
    intro i hi
    rw [show A ++ ((litVersion ++ ws1 ++ oldV) ++ specTailV B ws2 relD relT C D) =
        specContent A ws1 oldV B ws2 relD relT C D from by
      unfold specContent
      simp [List.append_assoc]]
    exact hV1 i hi
  have e1 : subAll (versionMatcher nr.version)
      (specContent A ws1 oldV B ws2 relD relT C D) =
      specAfterV A ws1 nr.version B ws2 relD relT C D := by
    rw [show specContent A ws1 oldV B ws2 relD relT C D =
        A ++ (litVersion ++ ws1 ++ oldV) ++ specTailV B ws2 relD relT C D from by
      unfold specContent
      simp [List.append_assoc]]
    rw [subAll_replace _ (versionMatcher_shrinks nr.version) A _ _ _ hmat1 hpre1 hV2]
    unfold specAfterV
    simp [List.append_assoc]
  -- pass 2: the release substitution
  have htailr : (specTailR C D).head? = some '\n' := by
    unfold specTailR
    rw [List.head?_append_of_ne_nil C hCne, hC]
  have hmat2 :
      releaseMatcher ((litRelease ++ ws2 ++ relD ++ relT) ++ specTailR C D) =
      some (litRelease ++ ws2 ++ '1' :: relT, specTailR C D) := by
    rw [show (litRelease ++ ws2 ++ relD ++ relT) ++ specTailR C D =
        litRelease ++ (ws2 ++ (relD ++ (relT ++ specTailR C D))) from by
      simp [List.append_assoc]]
    exact releaseMatcher_at ws2 relD relT _ hws2 hrelD hrelDne hrelT1 hrelT2 htailr
  have hpre2 : ∀ i, i < (A ++ (litVersion ++ (ws1 ++ (nr.version ++ B)))).length →
      releaseMatcher
        (((A ++ (litVersion ++ (ws1 ++ (nr.version ++ B)))) ++
          ((litRelease ++ ws2 ++ relD ++ relT) ++ specTailR C D)).drop i) = none := by
    intro i hi
    rw [show (A ++ (litVersion ++ (ws1 ++ (nr.version ++ B)))) ++
        ((litRelease ++ ws2 ++ relD ++ relT) ++ specTailR C D) =
        specAfterV A ws1 nr.version B ws2 relD relT C D from by
      unfold specAfterV specTailV
      simp [List.append_assoc]]
    exact hR1 i hi
  have e2 : subAll releaseMatcher (specAfterV A ws1 nr.version B ws2 relD relT C D) =
      specAfterVR A ws1 nr.version B ws2 relT C D := by
    rw [show specAfterV A ws1 nr.version B ws2 relD relT C D =
        (A ++ (litVersion ++ (ws1 ++ (nr.version ++ B)))) ++
          (litRelease ++ ws2 ++ relD ++ relT) ++ specTailR C D from by
      unfold specAfterV specTailV
      simp [List.append_assoc]]
    rw [subAll_replace _ releaseMatcher_shrinks
      (A ++ (litVersion ++ (ws1 ++ (nr.version ++ B)))) _ _ _ hmat2 hpre2 hR2]
    unfold specAfterVR
    simp [List.append_assoc]
  -- pass 3: the changelog insertion
  have hmat3 := changelogMatcher_at (specChangelogStanza today nr) D
  have hpre3 : ∀ i, i < (A ++ (litVersion ++ (ws1 ++ (nr.version ++
      (B ++ (litRelease ++ (ws2 ++ (('1' :: relT) ++ C)))))))).length →
      changelogMatcher (specChangelogStanza today nr)
        (((A ++ (litVersion ++ (ws1 ++ (nr.version ++
          (B ++ (litRelease ++ (ws2 ++ (('1' :: relT) ++ C)))))))) ++
          (litChangelog ++ D)).drop i) = none := by
    intro i hi
    rw [show (A ++ (litVersion ++ (ws1 ++ (nr.version ++
        (B ++ (litRelease ++ (ws2 ++ (('1' :: relT) ++ C)))))))) ++
        (litChangelog ++ D) =
        specAfterVR A ws1 nr.version B ws2 relT C D from by
      unfold specAfterVR specTailR
      simp [List.append_assoc]]
    exact hCh1 i hi
  have e3 : subAll (changelogMatcher (specChangelogStanza today nr))
      (specAfterVR A ws1 nr.version B ws2 relT C D) =
      specFinal A ws1 nr.version B ws2 relT C (specChangelogStanza today nr) D := by
    rw [show specAfterVR A ws1 nr.version B ws2 relT C D =
        (A ++ (litVersion ++ (ws1 ++ (nr.version ++
          (B ++ (litRelease ++ (ws2 ++ (('1' :: relT) ++ C)))))))) ++
          litChangelog ++ D from by
      unfold specAfterVR specTailR
      simp [List.append_assoc]]
    rw [subAll_replace _ (changelogMatcher_shrinks (specChangelogStanza today nr))
      (A ++ (litVersion ++ (ws1 ++ (nr.version ++
        (B ++ (litRelease ++ (ws2 ++ (('1' :: relT) ++ C))))))))
      litChangelog D _ hmat3 hpre3 hCh2]
    unfold specFinal
    simp [List.append_assoc]
  constructor
  · show update_spec true (specContent A ws1 oldV B ws2 relD relT C D) nr today = _
    unfold update_spec
    simp only [Bool.not_true, Bool.false_eq_true, if_false]
    rw [e1, e2, e3]
  · rfl

end ReleaseBot

namespace ReleaseBot

/-- Witness for C8: a concrete spec file
`Name: relbot\nVersion: 1.0.0\nSummary: test\nRelease: 3%dist\n\n%changelog\n* old entry\n`
is rewritten to version `2.0.0`, release counter `1`, with the new stanza for
author `Jane Doe <jane@example.com>` prepended under `%changelog`; with a
missing spec file the call errors. -/
theorem C8_update_spec_witness :
    update_spec true
      (specContent (s2l "Name: relbot\n") (s2l " ") (s2l "1.0.0")
        (s2l "\nSummary: test\n") (s2l " ") (s2l "3") (s2l "%dist") (s2l "\n\n")
        (s2l "* old entry\n"))
      ⟨s2l "2.0.0", s2l "Jane Doe", s2l "jane@example.com", []⟩
      (s2l "Mon Jan 01 2020") =
    .ok (specFinal (s2l "Name: relbot\n") (s2l " ") (s2l "2.0.0")
        (s2l "\nSummary: test\n") (s2l " ") (s2l "%dist") (s2l "\n\n")
        (specChangelogStanza (s2l "Mon Jan 01 2020")
          ⟨s2l "2.0.0", s2l "Jane Doe", s2l "jane@example.com", []⟩)
        (s2l "* old entry\n")) ∧
    update_spec false
      (specContent (s2l "Name: relbot\n") (s2l " ") (s2l "1.0.0")
        (s2l "\nSummary: test\n") (s2l " ") (s2l "3") (s2l "%dist") (s2l "\n\n")
        (s2l "* old entry\n"))
      ⟨s2l "2.0.0", s2l "Jane Doe", s2l "jane@example.com", []⟩
      (s2l "Mon Jan 01 2020") = .error () :=
  C8_update_spec_rewrites
    ⟨s2l "2.0.0", s2l "Jane Doe", s2l "jane@example.com", []⟩
    (s2l "Mon Jan 01 2020")
    (s2l "Name: relbot\n") (s2l " ") (s2l "1.0.0") (s2l "\nSummary: test\n")
    (s2l " ") (s2l "3") (s2l "%dist") (s2l "\n\n") (s2l "* old entry\n")
    (by decide) (by decide) (by decide) (by decide) (by decide) (by decide)
    (by decide) (by decide)
    (by
      intro c hc
      simp only [List.head?_cons, Option.some.injEq, s2l, String.data] at hc
      rw [← hc]
      decide)
    (by decide) (by decide) (by decide) (by decide) (by decide) (by decide)
    (by decide)

end ReleaseBot

namespace ReleaseBot

/-- Witness for C1: the title `"3.7.8 Release"` (lower-cased and trimmed by
the scanner) matches and yields version `3.7.8`. -/
theorem C1_scan_title_grammar_witness :
    (scanTitle (s2l "3.7.8 Release") ⟨0, 0, 1, [], []⟩).1 = true ∧
    (scanTitle (s2l "3.7.8 Release") ⟨0, 0, 1, [], []⟩).2 =
      amendedTitleVersion (pyStrip (pyLower (s2l "3.7.8 Release"))) ⟨0, 0, 1, [], []⟩ :=
  ⟨by decide,
   (C1_scan_title_grammar (s2l "3.7.8 Release") ⟨0, 0, 1, [], []⟩).2 (by decide)⟩

/-!
## `Github.make_new_release` / `ReleaseBot.make_new_github_release` (C3)

```python
try:
    latest_release = self.github.latest_release()
except ReleaseException as exc:
    raise ReleaseException(...)
if Version.coerce(latest_release) >= Version.coerce(self.new_release.version):
    self.logger.info(...already been released...)
else:
    try:
        if self.conf.dry_run: return None
        released, self.new_release = self.github.make_new_release(self.new_release)
        if released: release_handler(success=True)
    except ReleaseException:
        release_handler(success=False)
        raise
self.github.update_changelog(self.new_release.version)
```

`github.update_changelog` fetches tags, checks out the tag, reads
`CHANGELOG.md` (returning early when absent), computes the changelog with
`utils.parse_changelog`, `GET`s the latest release and `POST`s a body update
only when the stored body differs.  Version strings are represented by their
parsed `SemVer` values; the `Version.coerce` comparisons become `semverLe`. -/

/-- `str(Version)`: `MAJOR.MINOR.PATCH[-pre][+build]` with dot-joined
identifiers. -/
def verStr (v : SemVer) : List Char :=
  renderMMP v ++
  (if v.prerelease.isEmpty then []
   else '-' :: (v.prerelease.intersperse (s2l ".")).flatten) ++
  (if v.build.isEmpty then []
   else '+' :: (v.build.intersperse (s2l ".")).flatten)

/-- `chunks[0]` of `re.split(r"\n# ", changelog_content)`: the content up to
the first occurrence of `"\n# "`. -/
def firstChunk : List Char → List Char
  | [] => []
  | c :: r => if (s2l "\n# ").isPrefixOf (c :: r) then [] else c :: firstChunk r

/-- `utils.parse_changelog(version, changelog_content)`: the first chunk when
it starts with `"# <version>"`, else the placeholder. -/
def parse_changelog (version content : List Char) : List Char :=
  let first := firstChunk content
  if ((s2l "# ") ++ version).isPrefixOf first then first
  else s2l "No changelog provided"

/-- Events of the GitHub release step.  `createRelease` and `postNotes` are
the two writes to the release registry. -/
inductive GhEv where
  | latestQuery
  | createRelease
  | fetchTags
  | checkoutTag
  | readChangelog
  | checkoutMaster
  | getLatestRelease
  | postNotes (body : List Char)
deriving DecidableEq, Repr

/-- Progress-note lines appended to the batched comment buffer. -/
inductive CommentMsg where
  | ghSuccess
  | ghFail
  | pypiSuccess
  | pypiFail
deriving DecidableEq, Repr

/-- Outcome of a step method: normal return, a propagating
`ReleaseException`, or the early `return None` of dry-run mode. -/
inductive StepOut where
  | ok
  | raised
  | dryNone
deriving DecidableEq, Repr

/-- Environment of one GitHub release step. -/
structure GhEnv where
  latest : SemVer
  latestErr : Bool
  dryRun : Bool
  createOk : Bool
  changelogFile : Option (List Char)
  releaseBody : List Char
  version : SemVer
deriving Repr

/-- `Github.update_changelog(new_version)`: events it performs. -/
def update_changelog (e : GhEnv) : List GhEv :=
  match e.changelogFile with
  | none => [.fetchTags, .checkoutTag, .readChangelog, .checkoutMaster]
  | some content =>
    let changelog := parse_changelog (verStr e.version) content
    if e.releaseBody = changelog then
      [.fetchTags, .checkoutTag, .readChangelog, .checkoutMaster, .getLatestRelease]
    else
      [.fetchTags, .checkoutTag, .readChangelog, .checkoutMaster, .getLatestRelease,
        .postNotes changelog]

/-- `ReleaseBot.make_new_github_release`: events, appended comment lines and
outcome. -/
def make_new_github_release (e : GhEnv) : List GhEv × List CommentMsg × StepOut :=
  if e.latestErr then ([.latestQuery], [], .raised)
  else if semverLe e.version e.latest then
    ([.latestQuery] ++ update_changelog e, [], .ok)
  else if e.dryRun then ([.latestQuery], [], .dryNone)
  else if e.createOk then
    ([.latestQuery, .createRelease] ++ update_changelog e, [.ghSuccess], .ok)
  else ([.latestQuery, .createRelease], [.ghFail], .raised)

/-- Is the event a write to the release registry? -/
def registryWrite : GhEv → Bool
  | .createRelease => true
  | .postNotes _ => true
  | _ => false

/-- The environment after a skip-path run: the stored release body now equals
the computed changelog (either it already did, or the run posted it). -/
def afterSkipRun (e : GhEnv) : GhEnv :=
  { e with releaseBody :=
      match e.changelogFile with
      | none => e.releaseBody
      | some content => parse_changelog (verStr e.version) content }

/-- **C3** (corrected).  When the live latest GitHub release already satisfies
the target version, `make_new_github_release` performs no release-creation
call — but it still refreshes the release notes, so the skip path may post
one release-notes update when the stored body differs from the computed
changelog.  Running the step a second time against the state left by the
first run (same target, same satisfied latest, notes now equal to the
changelog) performs zero release-registry writes. -/
theorem C3_github_release_idempotent (e : GhEnv) (h1 : e.latestErr = false)
    (h2 : semverLe e.version e.latest = true) :
    ((make_new_github_release e).1.filter (fun ev => ev = GhEv.createRelease)) = [] ∧
    ((make_new_github_release (afterSkipRun e)).1.filter registryWrite) = [] := by
  have hskip : make_new_github_release e =
      ([.latestQuery] ++ update_changelog e, [], .ok) := by
    unfold make_new_github_release
    rw [h1, if_neg (by simp), if_pos h2]
  have h1' : (afterSkipRun e).latestErr = false := h1
  have h2' : semverLe (afterSkipRun e).version (afterSkipRun e).latest = true := h2
  have hskip2 : make_new_github_release (afterSkipRun e) =
      ([.latestQuery] ++ update_changelog (afterSkipRun e), [], .ok) := by
    unfold make_new_github_release
    rw [h1', if_neg (by simp), if_pos h2']
  constructor
  · rw [hskip]
    unfold update_changelog
    cases e.changelogFile with
    | none => rfl
    | some content =>
      simp only
      split <;> rfl
  · rw [hskip2]
    unfold update_changelog afterSkipRun
    cases hc : e.changelogFile with
    | none => simp [hc, registryWrite]
    | some content =>
      simp only [hc]
      simp [registryWrite]

/-- Counterexample to C3 as stated: latest release `1.0.0` already satisfies
target `1.0.0`, yet with a `CHANGELOG.md` whose entry differs from the stored
release notes the skip path posts a release-notes update — a side effect on
the release registry. -/
theorem C3_claim_counterexample :
    (⟨⟨1, 0, 0, [], []⟩, false, false, true, some (s2l "# 1.0.0\nfixes"),
        s2l "old notes", ⟨1, 0, 0, [], []⟩⟩ : GhEnv).latestErr = false ∧
    semverLe (⟨⟨1, 0, 0, [], []⟩, false, false, true, some (s2l "# 1.0.0\nfixes"),
        s2l "old notes", ⟨1, 0, 0, [], []⟩⟩ : GhEnv).version
      (⟨⟨1, 0, 0, [], []⟩, false, false, true, some (s2l "# 1.0.0\nfixes"),
        s2l "old notes", ⟨1, 0, 0, [], []⟩⟩ : GhEnv).latest = true ∧
    ((make_new_github_release
        ⟨⟨1, 0, 0, [], []⟩, false, false, true, some (s2l "# 1.0.0\nfixes"),
          s2l "old notes", ⟨1, 0, 0, [], []⟩⟩).1.filter registryWrite) ≠ [] := by
  refine ⟨rfl, by decide, ?_⟩
  decide

/-- Witness for C3: with latest `1.0.0` ≥ target `1.0.0` and no
`CHANGELOG.md`, the step creates nothing, and the second run performs zero
registry writes. -/
theorem C3_github_release_idempotent_witness :
    ((make_new_github_release
        ⟨⟨1, 0, 0, [], []⟩, false, false, true, none, s2l "old notes",
          ⟨1, 0, 0, [], []⟩⟩).1.filter (fun ev => ev = GhEv.createRelease)) = [] ∧
    ((make_new_github_release (afterSkipRun
        ⟨⟨1, 0, 0, [], []⟩, false, false, true, none, s2l "old notes",
          ⟨1, 0, 0, [], []⟩⟩)).1.filter registryWrite) = [] :=
  C3_github_release_idempotent
    ⟨⟨1, 0, 0, [], []⟩, false, false, true, none, s2l "old notes", ⟨1, 0, 0, [], []⟩⟩
    rfl (by decide)

end ReleaseBot

namespace ReleaseBot

/-!
## The per-cycle state machine

Two generations of the bot are in the tree.

`releasebot.py` (current) runs, per cycle:

```python
self.git.pull()
try:
    self.load_release_conf()
    if self.find_newest_release_pull_request():
        self.make_new_github_release()
        # Try to do PyPi release regardless whether we just did github release
        self.make_new_pypi_release()
except ReleaseException as exc:
    self.logger.error(exc)
try:
    if self.new_release.trigger_on_issue and self.find_open_release_issues():
        ...
        self.make_release_pull_request()
except ReleaseException as exc:
    self.logger.error(exc)
self.github.add_comment(self.new_release.pr_id)
time.sleep(self.conf.refresh_interval)
```

`release_bot.py` (legacy) runs, per cycle:

```python
cursor = self.find_pull_request_with_latest_pypi_release()
if cursor and self.check_for_new_pull_request_since_latest_pypi(cursor):
    if self.make_new_github_release():          # sys.exit(1) on failure
        self.make_new_pypi_release()            # pypi, then fedora on success
```

and its `make_new_pypi_release`:

```python
latest_pypi = self.pypi.latest_version()
if Version.coerce(latest_pypi) < Version.coerce(self.new_release['version']):
    release_conf = self.conf.load_release_conf(...)       # sys.exit on error
    self.new_release.update(release_conf)
    self.pypi.release(self.new_release)                   # sys.exit on failure
    if self.new_release['fedora']:
        self.fedora.release(self.new_release)
    self.new_release['tempdir'].cleanup()
else:
    ... nothing to do ...
```
-/

/-- Events of the current (`releasebot.py`) cycle. -/
inductive CycEv where
  | pull
  | loadConf
  | findPR
  | ghStep
  | ghDone
  | pypiStep
  | pypiUpload
  | issueScan
  | makePR
  | addComment
deriving DecidableEq, Repr

/-- Environment of one `releasebot.py` cycle. -/
structure CycleEnv where
  pullOk : Bool
  loadConfOk : Bool
  findPROk : Bool
  prFound : Bool
  gh : GhEnv
  pypiFlag : Bool
  pypiLatestErr : Bool
  pypiLatest : SemVer
  pypiOk : Bool
  triggerOnIssue : Bool
  issueFound : Bool
  issueFlowOk : Bool
  prId : Option (List Char)
  addCommentErr : Bool
deriving Repr

/-- `ReleaseBot.make_new_pypi_release` (current): skip without the `pypi`
flag; query the PyPI latest version (a `ReleaseException` if the package is
unknown); skip when it already satisfies the target; otherwise build and
upload (`pypi.release()` raises on failure, and the handler appends a
progress note either way). -/
def make_new_pypi_release (e : CycleEnv) : List CycEv × List CommentMsg × StepOut :=
  if !e.pypiFlag then ([.pypiStep], [], .ok)
  else if e.pypiLatestErr then ([.pypiStep], [], .raised)
  else if semverLe e.gh.version e.pypiLatest then ([.pypiStep], [], .ok)
  else if e.pypiOk then ([.pypiStep, .pypiUpload], [.pypiSuccess], .ok)
  else ([.pypiStep, .pypiUpload], [.pypiFail], .raised)

/-- The first guarded block of the cycle (conf + PR scan + GitHub + PyPI);
every `ReleaseException` raised inside is caught at the block boundary. -/
def cycleBlock1 (e : CycleEnv) : List CycEv × List CommentMsg :=
  if !e.loadConfOk then ([.loadConf], [])
  else if !e.findPROk then ([.loadConf, .findPR], [])
  else if !e.prFound then ([.loadConf, .findPR], [])
  else
    let (_, ghComments, ghOut) := make_new_github_release e.gh
    match ghOut with
    | .raised => ([.loadConf, .findPR, .ghStep], ghComments)
    | _ =>
      let (pypiEvs, pypiComments, _) := make_new_pypi_release e
      ([.loadConf, .findPR, .ghStep, .ghDone] ++ pypiEvs, ghComments ++ pypiComments)

/-- The second guarded block (issue scan and release PR). -/
def cycleBlock2 (e : CycleEnv) : List CycEv :=
  if e.triggerOnIssue && e.issueFound then [.issueScan, .makePR]
  else if e.triggerOnIssue then [.issueScan]
  else []

/-- `Github.add_comment(subject_id)`: returns at once without a subject or
with an empty buffer (or in dry-run mode); otherwise posts the batched
comment, raising a `ReleaseException` when the API reports errors. -/
def add_comment (dryRun : Bool) (subject : Option (List Char))
    (comments : List CommentMsg) (apiErr : Bool) : List CycEv × Option Unit :=
  match subject with
  | none => ([], none)
  | some _ =>
    if comments.isEmpty then ([], none)
    else if dryRun then ([], none)
    else if apiErr then ([.addComment], some ())
    else ([.addComment], none)

/-- One iteration of `ReleaseBot.run` (current bot): the `git.pull()` at the
top and the `github.add_comment(...)` at the bottom sit outside the two
`try/except ReleaseException` blocks; everything else is guarded.  Returns
the event trace and `some ()` when an exception escapes the iteration. -/
def runCycle (e : CycleEnv) : List CycEv × Option Unit :=
  if !e.pullOk then ([.pull], some ())
  else
    let (b1, comments) := cycleBlock1 e
    let b2 := cycleBlock2 e
    let (acEvs, acOut) := add_comment e.gh.dryRun e.prId comments e.addCommentErr
    (.pull :: (b1 ++ b2 ++ acEvs), acOut)

/-- Claim C9 as stated, for one cycle environment: no collaborator error
raised inside the cycle body escapes the iteration. -/
def claimC9 (e : CycleEnv) : Prop := (runCycle e).2 = none

/-- Events of the legacy (`release_bot.py`) cycle. -/
inductive OldEv where
  | scan
  | ghAttempt
  | ghCreated
  | ghSkipExisting
  | exitEv
  | pypiCheck
  | oldLoadConf
  | pypiRelease
  | fedoraRelease
deriving DecidableEq, Repr

/-- Outcome of the legacy `Github.make_new_release`: the release was created
(HTTP 201), it already existed (detected by the follow-up GET), or the
creation failed (`sys.exit(1)`). -/
inductive CreateSt where
  | created
  | existsAlready
  | failed
deriving DecidableEq, Repr

/-- Environment of one legacy cycle. -/
structure OldEnv where
  prFound : Bool
  createStatus : CreateSt
  pypiLatest : SemVer
  version : SemVer
  confOk : Bool
  pypiRelOk : Bool
  fedoraFlag : Bool
deriving Repr

/-- The legacy `make_new_pypi_release`: compare against the live PyPI
version; on a newer GitHub version load the release configuration, build and
upload (each exiting the process on failure), and only then — when the
`fedora` flag is set — run the distribution release. -/
def oldPypiPart (e : OldEnv) : List OldEv :=
  if semverLt e.pypiLatest e.version then
    [.pypiCheck, .oldLoadConf] ++
      (if !e.confOk then [.exitEv]
       else if !e.pypiRelOk then [.pypiRelease, .exitEv]
       else [.pypiRelease] ++ (if e.fedoraFlag then [.fedoraRelease] else []))
  else [.pypiCheck]

/-- One iteration of the legacy `ReleaseBot.run`. -/
def oldCycle (e : OldEnv) : List OldEv :=
  if !e.prFound then [.scan]
  else
    match e.createStatus with
    | .failed => [.scan, .ghAttempt, .exitEv]
    | .created => [.scan, .ghAttempt, .ghCreated] ++ oldPypiPart e
    | .existsAlready => [.scan, .ghAttempt, .ghSkipExisting] ++ oldPypiPart e

/-- Checks that before the first `pypiStep` event a `ghDone` event occurred. -/
def pypiAfterGhDone : List CycEv → Bool → Bool
  | [], _ => true
  | ev :: r, seen =>
    if ev = .pypiStep then seen && pypiAfterGhDone r seen
    else pypiAfterGhDone r (seen || ev = .ghDone)

/-- Checks that before the first `pypiCheck` event the GitHub step completed
(created or already-existing). -/
def oldPypiAfterGh : List OldEv → Bool → Bool
  | [], _ => true
  | ev :: r, seen =>
    if ev = .pypiCheck then seen && oldPypiAfterGh r seen
    else oldPypiAfterGh r (seen || ev = .ghCreated || ev = .ghSkipExisting)

/-- Checks that every `fedoraRelease` event directly follows a successful
`pypiRelease` event. -/
def fedoraJustAfterPypi : Option OldEv → List OldEv → Bool
  | _, [] => true
  | prev, ev :: r =>
    (if ev = .fedoraRelease then prev = some .pypiRelease else true) &&
      fedoraJustAfterPypi (some ev) r

end ReleaseBot

namespace ReleaseBot

lemma pypiAfterGhDone_true : ∀ l : List CycEv, pypiAfterGhDone l true = true := by
  intro l
  induction l with
  | nil => rfl
  | cons ev r ih =>
    unfold pypiAfterGhDone
    by_cases h : ev = CycEv.pypiStep
    · rw [if_pos h]
      simpa using ih
    · rw [if_neg h]
      simpa using ih

lemma pypiAfterGhDone_no_pypi :
    ∀ (l : List CycEv) (s : Bool), CycEv.pypiStep ∉ l → pypiAfterGhDone l s = true := by
  intro l
  induction l with
  | nil => intro s _; rfl
  | cons ev r ih =>
    intro s h
    unfold pypiAfterGhDone
    rw [if_neg (by intro h0; exact h (by rw [h0]; simp))]
    exact ih _ (fun hc => h (by simp [hc]))

lemma cycleBlock2_no_pypi (e : CycleEnv) : CycEv.pypiStep ∉ cycleBlock2 e := by
  unfold cycleBlock2
  split
  · decide
  · split
    · decide
    · decide

lemma add_comment_no_pypi (d : Bool) (s : Option (List Char))
    (c : List CommentMsg) (a : Bool) : CycEv.pypiStep ∉ (add_comment d s c a).1 := by
  unfold add_comment
  cases s with
  | none => simp
  | some v =>
    by_cases h1 : c.isEmpty <;> by_cases h2 : d <;> by_cases h3 : a <;>
      simp [h1, h2, h3]

lemma pypiAfterGhDone_four (rest : List CycEv) :
    pypiAfterGhDone
      (CycEv.loadConf :: CycEv.findPR :: CycEv.ghStep :: CycEv.ghDone :: rest)
      false = pypiAfterGhDone rest true := rfl

lemma cycleBlock1_ordered (e : CycleEnv) (tail : List CycEv)
    (htail : CycEv.pypiStep ∉ tail) :
    pypiAfterGhDone ((cycleBlock1 e).1 ++ tail) false = true := by
  have hsmall : ∀ small : List CycEv, CycEv.pypiStep ∉ small →
      pypiAfterGhDone (small ++ tail) false = true := by
    intro small hs
    refine pypiAfterGhDone_no_pypi _ _ ?_
    intro hc
    rw [List.mem_append] at hc
    rcases hc with hc | hc
    · exact hs hc
    · exact htail hc
  unfold cycleBlock1
  by_cases h1 : e.loadConfOk
  · by_cases h2 : e.findPROk
    · by_cases h3 : e.prFound
      · simp only [h1, h2, h3, Bool.not_true, Bool.false_eq_true, if_false]
        cases hgh : make_new_github_release e.gh with
        | mk evs rest =>
          obtain ⟨comments, out⟩ := rest
          cases out with
          | raised =>
            simp only
            exact hsmall _ (by decide)
          | ok =>
            simp only
            cases hpy : make_new_pypi_release e with
            | mk pyEvs prest =>
              simp only
              show pypiAfterGhDone
                (CycEv.loadConf :: CycEv.findPR :: CycEv.ghStep :: CycEv.ghDone ::
                  (pyEvs ++ tail)) false = true
              rw [pypiAfterGhDone_four]
              exact pypiAfterGhDone_true _
          | dryNone =>
            simp only
            cases hpy : make_new_pypi_release e with
            | mk pyEvs prest =>
              simp only
              show pypiAfterGhDone
                (CycEv.loadConf :: CycEv.findPR :: CycEv.ghStep :: CycEv.ghDone ::
                  (pyEvs ++ tail)) false = true
              rw [pypiAfterGhDone_four]
              exact pypiAfterGhDone_true _
      · simp only [h1, h2, h3, Bool.not_true, Bool.false_eq_true, if_false,
          Bool.not_false, if_true]
        exact hsmall _ (by decide)
    · simp only [h1, h2, Bool.not_true, Bool.false_eq_true, if_false,
        Bool.not_false, if_true]
      exact hsmall _ (by decide)
  · simp only [h1, Bool.not_false, if_true]
    exact hsmall _ (by decide)

end ReleaseBot

namespace ReleaseBot

/-- **C2**.  Step ordering of the release state machine, in both generations
of the bot.  Current bot (`releasebot.py`): in every cycle trace, the PyPI
step starts only after the GitHub step has completed (normal return — by
creating the release, by the idempotent skip, or by the dry-run return).
Legacy bot (`release_bot.py`, the generation that carries the Fedora step):
the PyPI check runs only after the GitHub release completed (created or
detected as already existing); the Fedora release directly follows a
successful PyPI upload; and no Fedora release happens in a cycle whose PyPI
step was skipped (live PyPI already up to date) or failed. -/
theorem C2_step_ordering (e : CycleEnv) (o : OldEnv) :
    pypiAfterGhDone (runCycle e).1 false = true ∧
    oldPypiAfterGh (oldCycle o) false = true ∧
    fedoraJustAfterPypi none (oldCycle o) = true ∧
    (semverLt o.pypiLatest o.version = false → OldEv.fedoraRelease ∉ oldCycle o) ∧
    (o.pypiRelOk = false → OldEv.fedoraRelease ∉ oldCycle o) := by
  refine ⟨?_, ?_, ?_, ?_, ?_⟩
  · unfold runCycle
    by_cases hp : e.pullOk
    · simp only [hp, Bool.not_true, Bool.false_eq_true, if_false]
      cases hb : cycleBlock1 e with
      | mk b1 comments =>
        simp only
        cases hac : add_comment e.gh.dryRun e.prId comments e.addCommentErr with
        | mk acEvs acOut =>
          simp only
          show pypiAfterGhDone
            (CycEv.pull :: (b1 ++ cycleBlock2 e ++ acEvs)) false = true
          rw [show pypiAfterGhDone
              (CycEv.pull :: (b1 ++ cycleBlock2 e ++ acEvs)) false =
              pypiAfterGhDone (b1 ++ cycleBlock2 e ++ acEvs) false from rfl]
          rw [List.append_assoc]
          have hb1 : b1 = (cycleBlock1 e).1 := by rw [hb]
          rw [hb1]
          refine cycleBlock1_ordered e _ ?_
          intro hc
          rw [List.mem_append] at hc
          rcases hc with hc | hc
          · exact cycleBlock2_no_pypi e hc
          · have heq : acEvs =
                (add_comment e.gh.dryRun e.prId comments e.addCommentErr).1 := by
              rw [hac]
            rw [heq] at hc
            exact add_comment_no_pypi _ _ _ _ hc
    · rw [Bool.not_eq_true] at hp
      rw [hp]
      rfl
  · rcases o with ⟨pf, cs, pl, v, ck, pk, ff⟩
    cases pf <;> cases cs <;> by_cases hlt : semverLt pl v = true <;>
      cases ck <;> cases pk <;> cases ff <;>
      simp [oldCycle, oldPypiPart, hlt, oldPypiAfterGh]
  · rcases o with ⟨pf, cs, pl, v, ck, pk, ff⟩
    cases pf <;> cases cs <;> by_cases hlt : semverLt pl v = true <;>
      cases ck <;> cases pk <;> cases ff <;>
      simp [oldCycle, oldPypiPart, hlt, fedoraJustAfterPypi]
  · rcases o with ⟨pf, cs, pl, v, ck, pk, ff⟩
    intro hskip
    cases pf <;> cases cs <;>
      simp_all [oldCycle, oldPypiPart]
  · rcases o with ⟨pf, cs, pl, v, ck, pk, ff⟩
    intro hfail
    cases pf <;> cases cs <;> by_cases hlt : semverLt pl v = true <;> cases ck <;>
      simp_all [oldCycle, oldPypiPart]

/-- Witness for C2: a legacy cycle whose live PyPI version already equals the
target performs no Fedora release, and one whose PyPI upload fails performs
no Fedora release either. -/
theorem C2_step_ordering_witness :
    OldEv.fedoraRelease ∉
      oldCycle ⟨true, .created, ⟨1, 0, 0, [], []⟩, ⟨1, 0, 0, [], []⟩,
        true, true, true⟩ ∧
    OldEv.fedoraRelease ∉
      oldCycle ⟨true, .created, ⟨1, 0, 0, [], []⟩, ⟨2, 0, 0, [], []⟩,
        true, false, true⟩ :=
  ⟨(C2_step_ordering
      ⟨true, true, true, true,
        ⟨⟨1, 0, 0, [], []⟩, false, false, true, none, [], ⟨2, 0, 0, [], []⟩⟩,
        true, false, ⟨0, 0, 0, [], []⟩, true, false, false, true, none, false⟩
      ⟨true, .created, ⟨1, 0, 0, [], []⟩, ⟨1, 0, 0, [], []⟩,
        true, true, true⟩).2.2.2.1 (by decide),
   (C2_step_ordering
      ⟨true, true, true, true,
        ⟨⟨1, 0, 0, [], []⟩, false, false, true, none, [], ⟨2, 0, 0, [], []⟩⟩,
        true, false, ⟨0, 0, 0, [], []⟩, true, false, false, true, none, false⟩
      ⟨true, .created, ⟨1, 0, 0, [], []⟩, ⟨2, 0, 0, [], []⟩,
        true, false, true⟩).2.2.2.2 rfl⟩

lemma add_comment_none (d : Bool) (s : Option (List Char)) (c : List CommentMsg) :
    (add_comment d s c false).2 = none := by
  unfold add_comment
  cases s with
  | none => rfl
  | some v =>
    by_cases h1 : c.isEmpty <;> by_cases h2 : d <;> simp [h1, h2]

/-- **C9** (corrected).  `ReleaseException`s raised by collaborators inside
the two guarded blocks of the cycle body (configuration loading, PR scan,
GitHub release, PyPI release, issue scan, release-PR creation) are caught at
the block boundary and never escape the iteration: when the initial
`git.pull()` succeeds and the final batched-comment flush does not raise, the
cycle completes normally whatever those collaborators do.  But the
`github.add_comment` call at the end of the cycle (like `git.pull()` at the
top) sits outside both `try/except` blocks, so its errors do escape. -/
theorem C9_cycle_error_containment (e : CycleEnv) (hp : e.pullOk = true)
    (hac : e.addCommentErr = false) : (runCycle e).2 = none := by
  unfold runCycle
  rw [hp]
  simp only [Bool.not_true, Bool.false_eq_true, if_false]
  cases hb : cycleBlock1 e with
  | mk b1 comments =>
    simp only
    have := add_comment_none e.gh.dryRun e.prId comments
    rw [← hac] at this
    cases hacr : add_comment e.gh.dryRun e.prId comments e.addCommentErr with
    | mk acEvs acOut =>
      simp only
      rw [hacr] at this
      exact this

/-- Counterexample to C9 as stated: a cycle in which every guarded step
succeeds (the GitHub release is created, PyPI uploads, so the notes buffer is
non-empty and a PR id is recorded) but the final `github.add_comment` hits an
API error: the `ReleaseException` it raises escapes the cycle. -/
theorem C9_claim_counterexample :
    ¬ claimC9
      ⟨true, true, true, true,
        ⟨⟨1, 0, 0, [], []⟩, false, false, true, none, [], ⟨2, 0, 0, [], []⟩⟩,
        true, false, ⟨1, 0, 0, [], []⟩, true, false, false, true,
        some (s2l "PRID"), true⟩ := by
  unfold claimC9
  decide

/-- Witness for C9: the same cycle with a healthy comment flush completes
without an escaping exception, whatever the guarded steps did. -/
theorem C9_cycle_error_containment_witness :
    (runCycle
      ⟨true, true, true, true,
        ⟨⟨1, 0, 0, [], []⟩, true, false, true, none, [], ⟨2, 0, 0, [], []⟩⟩,
        true, true, ⟨1, 0, 0, [], []⟩, false, true, true, false,
        some (s2l "PRID"), false⟩).2 = none :=
  C9_cycle_error_containment
    ⟨true, true, true, true,
      ⟨⟨1, 0, 0, [], []⟩, true, false, true, none, [], ⟨2, 0, 0, [], []⟩⟩,
      true, true, ⟨1, 0, 0, [], []⟩, false, true, true, false,
      some (s2l "PRID"), false⟩ rfl rfl

end ReleaseBot
